import Mathlib

/-!
Verification of the realtime trajectory pipeline
(`realtime_analysis` package: `utility/utils.py`, `ingest_realtime.py`,
`data/build_realtime_trajectories.py`).

Conventions of the embedding:
* Python `Optional[str]` becomes `Option String`; Python truthiness of a
  string (`if s:`) is `strTruthy` (present and non-empty).
* `datetime.date` / `datetime.datetime` values are embedded as plain
  records of calendar fields at whole-second granularity, which is all the
  formatting directives used by the source (`%Y%m%d`, `%Y%m%dT%H%M%S`)
  ever read.
* Database rows are Lean structures; SQL queries over them are Lean list
  functions; timestamps are `Int` (epoch seconds); coordinates are `ℚ`.
-/

/-- Python truthiness of an optional string: `if s:` is true iff the value
is present and non-empty. -/
def strTruthy : Option String → Bool
  | none => false
  | some s => s != ("")

/-- Zero-pad a natural number to two digits (`strftime` `%m`, `%d`, `%H`,
`%M`, `%S`). -/
def pad2 (n : Nat) : String :=
  if n < 10 then ("0") ++ Nat.repr n else Nat.repr n

/-- Zero-pad a natural number to four digits (`strftime` `%Y`). -/
def pad4 (n : Nat) : String :=
  if n < 10 then ("000") ++ Nat.repr n
  else if n < 100 then ("00") ++ Nat.repr n
  else if n < 1000 then ("0") ++ Nat.repr n
  else Nat.repr n

/-- A `datetime.date`: year, month, day. -/
structure PyDate where
  y : Nat
  m : Nat
  d : Nat
deriving DecidableEq, Repr

/-- A timezone-aware `datetime.datetime` truncated to whole seconds (the
only precision the source ever formats). -/
structure PyDateTime where
  y : Nat
  mo : Nat
  d : Nat
  hh : Nat
  mi : Nat
  ss : Nat
deriving DecidableEq, Repr

/-- `date.strftime("%Y%m%d")`. -/
def fmtDate (d : PyDate) : String :=
  pad4 d.y ++ pad2 d.m ++ pad2 d.d

/-- `datetime.strftime("%Y%m%dT%H%M%S")`. -/
def fmtTimestamp (t : PyDateTime) : String :=
  pad4 t.y ++ pad2 t.mo ++ pad2 t.d ++ ("T") ++ pad2 t.hh ++ pad2 t.mi ++ pad2 t.ss

/-- Python `s.replace(":", "")`: drop every colon character. -/
def stripColons (s : String) : String :=
  ⟨s.data.filter (fun c => c != (':' : Char))⟩

/-- Python `sep.join(parts)`. -/
def pyJoin (sep : String) : List String → String
  | [] => ("")
  | [s] => s
  | s :: rest => s ++ sep ++ pyJoin sep rest

/-- Embedding of `build_trip_instance_id`
(`src/realtime_analysis/utility/utils.py`, lines 130-159).  The source
collects `trip_id`, formatted `start_date` and colon-stripped `start_time`
into `parts` (each guarded by its own truthiness test), joins a non-empty
`parts` with underscores, and only when `parts` is empty falls back to
`vehicle_id` + fallback timestamp, and finally to `"trip_"` + fallback
timestamp. -/
def build_trip_instance_id (trip_id : Option String) (start_date : Option PyDate)
    (start_time : Option String) (vehicle_id : Option String)
    (fallback_timestamp : PyDateTime) : String :=
  let parts : List String :=
    (if strTruthy trip_id then [trip_id.getD ("")] else []) ++
    (if start_date.isSome then [fmtDate (start_date.getD ⟨0, 0, 0⟩)] else []) ++
    (if strTruthy start_time then [stripColons (start_time.getD (""))] else [])
  if parts ≠ [] then pyJoin ("_") parts
  else if strTruthy vehicle_id then
    (vehicle_id.getD ("")) ++ ("_") ++ fmtTimestamp fallback_timestamp
  else ("trip_") ++ fmtTimestamp fallback_timestamp

theorem string_append_eq_empty_iff (a b : String) :
    a ++ b = ("") ↔ a = ("") ∧ b = ("") := by
  constructor
  · intro h
    have hd := congrArg String.data h
    simp only [String.data_append] at hd
    rcases List.append_eq_nil.mp hd with ⟨h1, h2⟩
    exact ⟨String.ext h1, String.ext h2⟩
  · rintro ⟨h1, h2⟩
    subst h1; subst h2; rfl

theorem toDigitsCore_acc_ne_nil (b fuel n : Nat) (ds : List Char) (h : ds ≠ []) :
    Nat.toDigitsCore b fuel n ds ≠ [] := by
  induction fuel generalizing n ds with
  | zero => simpa [Nat.toDigitsCore] using h
  | succ fuel ih =>
    simp only [Nat.toDigitsCore]
    split
    · exact List.cons_ne_nil _ _
    · exact ih _ _ (List.cons_ne_nil _ _)

theorem nat_repr_ne_empty (n : Nat) : Nat.repr n ≠ ("") := by
  intro h
  have hd := congrArg String.data h
  simp only [Nat.repr, Nat.toDigits] at hd
  have : Nat.toDigitsCore 10 (n + 1) n [] ≠ [] := by
    simp only [Nat.toDigitsCore]
    split
    · exact List.cons_ne_nil _ _
    · exact toDigitsCore_acc_ne_nil _ _ _ _ (List.cons_ne_nil _ _)
  exact this hd

theorem pad4_ne_empty (n : Nat) : pad4 n ≠ ("") := by
  unfold pad4
  split
  · simp [string_append_eq_empty_iff]
  split
  · simp [string_append_eq_empty_iff]
  split
  · simp [string_append_eq_empty_iff]
  · exact nat_repr_ne_empty n

theorem fmtDate_ne_empty (d : PyDate) : fmtDate d ≠ ("") := by
  unfold fmtDate
  intro h
  exact pad4_ne_empty d.y (((string_append_eq_empty_iff _ _).mp
    (((string_append_eq_empty_iff _ _).mp h).1)).1)

theorem strTruthy_some_iff (s : String) : strTruthy (some s) = true ↔ s ≠ ("") := by
  simp [strTruthy]

/-- C1 counterexample.  With `trip_id` absent but `start_date` present the
function returns the bare formatted date instead of the claimed
`vehicle_id` + fallback-timestamp form; and with only a start time that
consists of a single colon it returns the empty string, contradicting the
claimed unconditional non-emptiness. -/
theorem C1_counterexample :
    build_trip_instance_id none (some ⟨2024, 1, 1⟩) none (some ("V1"))
        ⟨2025, 1, 2, 3, 4, 5⟩ = ("20240101") ∧
    ("20240101") ≠ ("V1_20250102T030405") ∧
    build_trip_instance_id none none (some (":")) (some ("V1"))
        ⟨2025, 1, 2, 3, 4, 5⟩ = ("") := by
  refine ⟨by decide, by decide, by decide⟩

/-- C1 amended.  `build_trip_instance_id` gives priority to the joint
presence of `trip_id`, `start_date`, `start_time` (any non-empty subset is
joined with underscores, in that order); only when all three are absent
does it fall back to `vehicle_id` + the fallback timestamp formatted
`YYYYMMDDTHHMMSS`, and finally to `"trip_"` + that timestamp.  The result
is empty exactly when the only present field is a start time consisting
solely of colons; the function is total (never raises). -/
theorem C1_amended (trip_id : Option String) (start_date : Option PyDate)
    (start_time : Option String) (vehicle_id : Option String) (ts : PyDateTime) :
    (∀ t, trip_id = some t → t ≠ ("") →
      build_trip_instance_id trip_id start_date start_time vehicle_id ts =
        t ++ (if start_date.isSome then ("_") ++ fmtDate (start_date.getD ⟨0, 0, 0⟩) else ("")) ++
          (if strTruthy start_time then ("_") ++ stripColons (start_time.getD ("")) else (""))) ∧
    (strTruthy trip_id = false → ∀ d, start_date = some d →
      build_trip_instance_id trip_id start_date start_time vehicle_id ts =
        fmtDate d ++
          (if strTruthy start_time then ("_") ++ stripColons (start_time.getD ("")) else (""))) ∧
    (strTruthy trip_id = false → start_date = none → ∀ s, start_time = some s → s ≠ ("") →
      build_trip_instance_id trip_id start_date start_time vehicle_id ts = stripColons s) ∧
    (strTruthy trip_id = false → start_date = none → strTruthy start_time = false →
      ∀ v, vehicle_id = some v → v ≠ ("") →
      build_trip_instance_id trip_id start_date start_time vehicle_id ts =
        v ++ ("_") ++ fmtTimestamp ts) ∧
    (strTruthy trip_id = false → start_date = none → strTruthy start_time = false →
      strTruthy vehicle_id = false →
      build_trip_instance_id trip_id start_date start_time vehicle_id ts =
        ("trip_") ++ fmtTimestamp ts) ∧
    (build_trip_instance_id trip_id start_date start_time vehicle_id ts = ("") ↔
      strTruthy trip_id = false ∧ start_date = none ∧ strTruthy start_time = true ∧
        stripColons (start_time.getD ("")) = ("")) := by
  refine ⟨?_, ?_, ?_, ?_, ?_, ?_⟩
  · intro t ht hne
    subst ht
    have h1 : strTruthy (some t) = true := (strTruthy_some_iff t).mpr hne
    cases start_date <;> cases hst : strTruthy start_time <;>
      simp [build_trip_instance_id, h1, hst, pyJoin, String.append_assoc]
  · intro h1 d hd
    subst hd
    cases hst : strTruthy start_time <;>
      simp [build_trip_instance_id, h1, hst, pyJoin, String.append_assoc]
  · intro h1 h2 s hs hne
    subst h2; subst hs
    have h3 : strTruthy (some s) = true := (strTruthy_some_iff s).mpr hne
    simp [build_trip_instance_id, h1, h3, pyJoin]
  · intro h1 h2 h3 v hv hne
    subst h2; subst hv
    have h4 : strTruthy (some v) = true := (strTruthy_some_iff v).mpr hne
    simp [build_trip_instance_id, h1, h3, h4]
  · intro h1 h2 h3 h4
    subst h2
    simp [build_trip_instance_id, h1, h3, h4]
  · cases h1 : strTruthy trip_id <;> cases start_date <;> cases h3 : strTruthy start_time
    · simp [build_trip_instance_id, h1, h3]
      cases h4 : strTruthy vehicle_id <;> simp [h4, string_append_eq_empty_iff]
    · simp [build_trip_instance_id, h1, h3, pyJoin]
    · simp [build_trip_instance_id, h1, h3, pyJoin, string_append_eq_empty_iff,
        fmtDate_ne_empty]
    · simp [build_trip_instance_id, h1, h3, pyJoin, string_append_eq_empty_iff,
        fmtDate_ne_empty]
    · rcases trip_id with _ | t
      · simp [strTruthy] at h1
      have hne : t ≠ ("") := (strTruthy_some_iff t).mp h1
      simp [build_trip_instance_id, h1, h3, pyJoin, string_append_eq_empty_iff, hne]
    · rcases trip_id with _ | t
      · simp [strTruthy] at h1
      have hne : t ≠ ("") := (strTruthy_some_iff t).mp h1
      simp [build_trip_instance_id, h1, h3, pyJoin, string_append_eq_empty_iff, hne]
    · rcases trip_id with _ | t
      · simp [strTruthy] at h1
      have hne : t ≠ ("") := (strTruthy_some_iff t).mp h1
      simp [build_trip_instance_id, h1, h3, pyJoin, string_append_eq_empty_iff, hne,
        fmtDate_ne_empty]
    · rcases trip_id with _ | t
      · simp [strTruthy] at h1
      have hne : t ≠ ("") := (strTruthy_some_iff t).mp h1
      simp [build_trip_instance_id, h1, h3, pyJoin, string_append_eq_empty_iff, hne,
        fmtDate_ne_empty]

/-- Witness for `C1_amended` at concrete inputs. -/
theorem C1_amended_witness :
    build_trip_instance_id (some ("T1")) (some ⟨2024, 1, 1⟩) (some ("08:00:00"))
        (some ("V9")) ⟨2025, 1, 2, 3, 4, 5⟩ = ("T1_20240101_080000") ∧
    build_trip_instance_id none none none (some ("V9"))
        ⟨2025, 1, 2, 3, 4, 5⟩ = ("V9_20250102T030405") := by
  constructor
  · have h := (C1_amended (some ("T1")) (some ⟨2024, 1, 1⟩) (some ("08:00:00"))
      (some ("V9")) ⟨2025, 1, 2, 3, 4, 5⟩).1 ("T1") rfl (by decide)
    exact h.trans (by decide)
  · have h := (C1_amended none none none (some ("V9"))
      ⟨2025, 1, 2, 3, 4, 5⟩).2.2.2.1 rfl rfl rfl ("V9") rfl (by decide)
    exact h.trans (by decide)

/-- C4 counterexample.  The scenario entity (trip "T1", date 20240101,
start "08:00:00", vehicle "V1") does not resolve to "T1_20240101_0800":
the colon-stripped start time keeps its seconds, giving
"T1_20240101_080000". -/
theorem C4_counterexample :
    build_trip_instance_id (some ("T1")) (some ⟨2024, 1, 1⟩) (some ("08:00:00"))
        (some ("V1")) ⟨2024, 1, 1, 8, 0, 0⟩ ≠ ("T1_20240101_0800") := by
  decide

/-- C4 amended.  With `trip_id` present the resolver's output is invariant
to `vehicle_id` (present, absent, or differing), and the scenario entities
(trip "T1", date 20240101, start "08:00:00", any vehicle) all resolve to
the identical id "T1_20240101_080000". -/
theorem C4_vehicle_invariance :
    (∀ (t : String) (sd : Option PyDate) (st : Option String)
        (v₁ v₂ : Option String) (ts : PyDateTime), t ≠ ("") →
      build_trip_instance_id (some t) sd st v₁ ts =
        build_trip_instance_id (some t) sd st v₂ ts) ∧
    (∀ v : Option String,
      build_trip_instance_id (some ("T1")) (some ⟨2024, 1, 1⟩) (some ("08:00:00")) v
        ⟨2024, 1, 1, 8, 0, 0⟩ = ("T1_20240101_080000")) := by
  constructor
  · intro t sd st v₁ v₂ ts hne
    have h1 : strTruthy (some t) = true := (strTruthy_some_iff t).mpr hne
    simp [build_trip_instance_id, h1]
  · intro v
    rfl

/-- Witness for `C4_vehicle_invariance` at concrete inputs (relief-bus
swap "V1" → "V2"). -/
theorem C4_vehicle_invariance_witness :
    build_trip_instance_id (some ("T1")) (some ⟨2024, 1, 1⟩) (some ("08:00:00"))
        (some ("V1")) ⟨2024, 1, 1, 8, 0, 0⟩ =
      build_trip_instance_id (some ("T1")) (some ⟨2024, 1, 1⟩) (some ("08:00:00"))
        (some ("V2")) ⟨2024, 1, 1, 8, 0, 0⟩ ∧
    build_trip_instance_id (some ("T1")) (some ⟨2024, 1, 1⟩) (some ("08:00:00"))
        (some ("V2")) ⟨2024, 1, 1, 8, 0, 0⟩ = ("T1_20240101_080000") := by
  exact ⟨C4_vehicle_invariance.1 ("T1") (some ⟨2024, 1, 1⟩) (some ("08:00:00"))
    (some ("V1")) (some ("V2")) ⟨2024, 1, 1, 8, 0, 0⟩ (by decide),
    C4_vehicle_invariance.2 (some ("V2"))⟩

/-- Python 3 `round` applied to an exact rational value: round half to
even (banker's rounding).  The source computes `i / (target_len - 1) *
max_index` in floats; the embedding models that arithmetic as exact
rational arithmetic. -/
def pyRound (q : ℚ) : ℤ :=
  if q - (⌊q⌋ : ℚ) < 1 / 2 then ⌊q⌋
  else if 1 / 2 < q - (⌊q⌋ : ℚ) then ⌊q⌋ + 1
  else if 2 ∣ ⌊q⌋ then ⌊q⌋ else ⌊q⌋ + 1

theorem pyRound_nonneg (q : ℚ) (h : 0 ≤ q) : 0 ≤ pyRound q := by
  have hf : (0 : ℤ) ≤ ⌊q⌋ := Int.floor_nonneg.mpr h
  unfold pyRound
  split
  · exact hf
  split
  · omega
  split
  · exact hf
  · omega

theorem pyRound_le (q : ℚ) (B : ℤ) (h : q ≤ (B : ℚ)) : pyRound q ≤ B := by
  have hfl : ⌊q⌋ ≤ B := by
    have := Int.floor_le_floor (α := ℚ) h
    simpa using this
  unfold pyRound
  split
  · exact hfl
  · have hge : (1 : ℚ) / 2 ≤ q - (⌊q⌋ : ℚ) := by linarith [lt_or_ge (q - (⌊q⌋ : ℚ)) (1 / 2)]
    have hq : (⌊q⌋ : ℚ) + 1 / 2 ≤ q := by linarith
    have : ((⌊q⌋ + 1 : ℤ) : ℚ) ≤ (B : ℚ) + 1 / 2 := by push_cast; linarith
    have hle : (⌊q⌋ + 1 : ℤ) ≤ B := by
      by_contra hc
      push_neg at hc
      have : (B : ℚ) + 1 ≤ ((⌊q⌋ + 1 : ℤ) : ℚ) := by exact_mod_cast hc
      linarith
    split
    · exact hle
    split
    · exact hfl
    · exact hle

/-- Embedding of `_resample_points`
(`build_realtime_trajectories.py`, lines 89-104).  The `points[idx]` index
access is written with `List.getD`; the bounds proof below shows the
default is never used. -/
def _resample_points {α : Type} [Inhabited α] (points : List α) (target_len : Int) : List α :=
  if target_len ≤ 0 ∨ points.isEmpty then []
  else if (points.length : Int) = target_len then points
  else if target_len = 1 then [points.headI]
  else
    (List.range target_len.toNat).map (fun i : ℕ =>
      let maxIdx : ℚ := (points.length : ℚ) - 1
      let frac : ℚ := (i : ℚ) / ((target_len : ℚ) - 1)
      points.getD (pyRound (frac * maxIdx)).toNat default)

/-- C9.  `_resample_points` implements the spec's resampling exactly: for
target length `N` over input length `M`, if `N ≤ 0` or the input is empty
the result is empty; if `M == N` the input is returned unchanged; if
`N == 1` the singleton holding the first element is returned; otherwise
the output has length `N` and output index `i` holds the input element at
index `round(i / (N - 1) * (M - 1))` (Python's round, modelled by
`pyRound`). -/
theorem C9_resample_spec {α : Type} [Inhabited α] :
    (∀ (points : List α) (N : Int), N ≤ 0 ∨ points = [] →
      _resample_points points N = []) ∧
    (∀ points : List α, _resample_points points (points.length : Int) = points) ∧
    (∀ points : List α, points ≠ [] → _resample_points points 1 = [points.headI]) ∧
    (∀ (points : List α) (N : Int), 2 ≤ N → points ≠ [] → (points.length : Int) ≠ N →
      (_resample_points points N).length = N.toNat ∧
      ∀ i : Nat, (i : Int) < N →
        (_resample_points points N).get? i =
          points.get?
            ((pyRound ((i : ℚ) / ((N : ℚ) - 1) * ((points.length : ℚ) - 1))).toNat)) := by
  refine ⟨?_, ?_, ?_, ?_⟩
  · intro points N h
    rcases h with h | h
    · simp [_resample_points, h]
    · simp [_resample_points, h]
  · intro points
    by_cases h0 : (points.length : Int) ≤ 0 ∨ points.isEmpty
    · rcases h0 with h0 | h0
      · have : points = [] := by
          have : points.length = 0 := by exact_mod_cast Int.le_antisymm h0 (by positivity)
          exact List.length_eq_zero.mp this
        simp [_resample_points, this]
      · have : points = [] := List.isEmpty_iff.mp h0
        simp [_resample_points, this]
    · simp [_resample_points, h0]
  · intro points hne
    have h1 : ¬((1 : Int) ≤ 0 ∨ points.isEmpty) := by
      simp [List.isEmpty_iff, hne]
    by_cases hlen : (points.length : Int) = 1
    · have : points.length = 1 := by exact_mod_cast hlen
      rcases List.length_eq_one.mp this with ⟨a, ha⟩
      simp [_resample_points, ha]
    · simp [_resample_points, h1, hlen, hne]
  · intro points N hN hne hlen
    have hguard : ¬(N ≤ 0 ∨ points.isEmpty) := by
      simp only [List.isEmpty_iff]
      push_neg
      exact ⟨by omega, hne⟩
    have hne1 : N ≠ 1 := by omega
    have hlen' : ¬((points.length : Int) = N) := hlen
    have hM : 1 ≤ points.length := List.length_pos.mpr hne
    have hidx : ∀ i : Nat, (i : Int) < N →
        (pyRound ((i : ℚ) / ((N : ℚ) - 1) * ((points.length : ℚ) - 1))).toNat <
          points.length := by
      intro i hi
      set q : ℚ := (i : ℚ) / ((N : ℚ) - 1) * ((points.length : ℚ) - 1) with hq
      have hNden : (0 : ℚ) < (N : ℚ) - 1 := by
        have : (2 : ℚ) ≤ (N : ℚ) := by exact_mod_cast hN
        linarith
      have hq0 : 0 ≤ q := by
        apply mul_nonneg
        · positivity
        · have : (1 : ℚ) ≤ (points.length : ℚ) := by exact_mod_cast hM
          linarith
      have hqB : q ≤ ((points.length : ℚ) - 1) := by
        have hfr : (i : ℚ) / ((N : ℚ) - 1) ≤ 1 := by
          rw [div_le_one hNden]
          have : (i : ℚ) + 1 ≤ (N : ℚ) := by exact_mod_cast hi
          linarith
        have hMQ : (0 : ℚ) ≤ (points.length : ℚ) - 1 := by
          have : (1 : ℚ) ≤ (points.length : ℚ) := by exact_mod_cast hM
          linarith
        calc q ≤ 1 * ((points.length : ℚ) - 1) := by
              exact mul_le_mul_of_nonneg_right hfr hMQ
          _ = (points.length : ℚ) - 1 := one_mul _
      have hle : pyRound q ≤ (points.length : ℤ) - 1 := by
        have := pyRound_le q ((points.length : ℤ) - 1) (by push_cast; linarith)
        exact this
      have hge := pyRound_nonneg q hq0
      omega
    have hrw : _resample_points points N =
        (List.range N.toNat).map (fun i : ℕ =>
          points.getD
            (pyRound ((i : ℚ) / ((N : ℚ) - 1) * ((points.length : ℚ) - 1))).toNat default) := by
      unfold _resample_points
      rw [if_neg hguard, if_neg hlen', if_neg hne1]
    constructor
    · rw [hrw]
      simp
    · intro i hi
      have hiN : i < N.toNat := by omega
      rw [hrw]
      rw [List.get?_eq_getElem?]
      rw [List.getElem?_map]
      rw [List.getElem?_range hiN]
      have hb := hidx i hi
      simp [List.getD_eq_getElem?_getD, List.get?_eq_getElem?, List.getElem?_eq_getElem hb]

/-- Witness for `C9_resample_spec` at concrete inputs
(`[10,20,30,40,50]`, targets 0, 1 and 3). -/
theorem C9_resample_spec_witness :
    _resample_points ([10, 20, 30, 40, 50] : List ℕ) 0 = [] ∧
    _resample_points ([10, 20, 30, 40, 50] : List ℕ) 1 = [10] ∧
    (_resample_points ([10, 20, 30, 40, 50] : List ℕ) 3).get? 1 =
      ([10, 20, 30, 40, 50] : List ℕ).get?
        ((pyRound ((1 : ℚ) / ((3 : ℚ) - 1) *
          ((([10, 20, 30, 40, 50] : List ℕ).length : ℚ) - 1))).toNat) := by
  refine ⟨?_, ?_, ?_⟩
  · exact (C9_resample_spec.1 ([10, 20, 30, 40, 50] : List ℕ) 0 (Or.inl (by decide)))
  · exact (C9_resample_spec.2.2.1 ([10, 20, 30, 40, 50] : List ℕ) (by decide))
  · exact (C9_resample_spec.2.2.2 ([10, 20, 30, 40, 50] : List ℕ) 3 (by decide)
      (by decide) (by decide)).2 1 (by decide)

/-- A row of `rt_vehicle_positions` as read by the trajectory builder
(`build_realtime_trajectories.py`).  `service_date` abstracts
`COALESCE(start_date, entity_timestamp::date)` as a day number;
`entity_timestamp` / `fetch_timestamp` are epoch seconds. -/
structure PosRow where
  trip_instance_id : Option String
  trip_id : Option String
  route_id : Option String
  service_date : Int
  vehicle_id : Option String
  entity_timestamp : Int
  fetch_timestamp : Int
  lat : ℚ
  lon : ℚ
deriving DecidableEq, Repr

/-- The `PARTITION BY` key of the builder's dedup window:
`(trip_instance_id, entity_timestamp)`. -/
def rowKey (r : PosRow) : Option String × Int :=
  (r.trip_instance_id, r.entity_timestamp)

/-- The row `ROW_NUMBER() OVER (PARTITION BY trip_instance_id,
entity_timestamp ORDER BY fetch_timestamp)` ranks first in group `k`:
the minimal `fetch_timestamp`, earlier list position winning ties (the
SQL sort leaves tie order unspecified; the embedding fixes input order). -/
def minFetchRow (k : Option String × Int) : List PosRow → Option PosRow
  | [] => none
  | r :: rest =>
    match minFetchRow k rest with
    | none => if rowKey r = k then some r else none
    | some m =>
      if rowKey r = k then
        if r.fetch_timestamp ≤ m.fetch_timestamp then some r else some m
      else some m

/-- The `dedup` CTE of `_build_trajs_sql_only` (lines 548-575): one row
per `(trip_instance_id, entity_timestamp)` pair, the kept row being the
one ranked first by `fetch_timestamp` ascending. -/
def dedupRows (rows : List PosRow) : List PosRow :=
  ((rows.map rowKey).dedup).filterMap (fun k => minFetchRow k rows)

theorem minFetchRow_isSome {k : Option String × Int} {rows : List PosRow}
    (h : ∃ r ∈ rows, rowKey r = k) : ∃ m, minFetchRow k rows = some m := by
  induction rows with
  | nil => simp at h
  | cons r0 rest ih =>
    rcases hrec : minFetchRow k rest with _ | m
    · by_cases hk : rowKey r0 = k
      · exact ⟨r0, by simp only [minFetchRow, hrec, if_pos hk]⟩
      · rcases h with ⟨r', hr', hk'⟩
        rcases List.mem_cons.mp hr' with rfl | hmem
        · exact absurd hk' hk
        · rcases ih ⟨r', hmem, hk'⟩ with ⟨m, hm⟩
          rw [hm] at hrec
          cases hrec
    · by_cases hk : rowKey r0 = k
      · by_cases hf : r0.fetch_timestamp ≤ m.fetch_timestamp
        · exact ⟨r0, by simp only [minFetchRow, hrec, if_pos hk, if_pos hf]⟩
        · exact ⟨m, by simp only [minFetchRow, hrec, if_pos hk, if_neg hf]⟩
      · exact ⟨m, by simp only [minFetchRow, hrec, if_neg hk]⟩

theorem minFetchRow_spec {k : Option String × Int} {rows : List PosRow} :
    ∀ {r : PosRow}, minFetchRow k rows = some r →
      r ∈ rows ∧ rowKey r = k ∧
        ∀ r' ∈ rows, rowKey r' = k → r.fetch_timestamp ≤ r'.fetch_timestamp := by
  induction rows with
  | nil => intro r h; simp [minFetchRow] at h
  | cons r0 rest ih =>
    intro r h
    rcases hrec : minFetchRow k rest with _ | m <;>
      simp only [minFetchRow, hrec] at h
    · by_cases hk : rowKey r0 = k
      · rw [if_pos hk] at h
        cases h
        refine ⟨List.mem_cons_self _ _, hk, ?_⟩
        intro r' hr' hk'
        rcases List.mem_cons.mp hr' with rfl | hmem
        · exact le_refl _
        · rcases minFetchRow_isSome ⟨r', hmem, hk'⟩ with ⟨m, hm⟩
          rw [hm] at hrec
          cases hrec
      · rw [if_neg hk] at h
        cases h
    · by_cases hk : rowKey r0 = k
      · rw [if_pos hk] at h
        by_cases hf : r0.fetch_timestamp ≤ m.fetch_timestamp
        · rw [if_pos hf] at h
          cases h
          refine ⟨List.mem_cons_self _ _, hk, ?_⟩
          intro r' hr' hk'
          rcases List.mem_cons.mp hr' with rfl | hmem
          · exact le_refl _
          · exact le_trans hf ((ih hrec).2.2 r' hmem hk')
        · rw [if_neg hf] at h
          cases h
          rcases ih hrec with ⟨hm1, hm2, hm3⟩
          refine ⟨List.mem_cons_of_mem _ hm1, hm2, ?_⟩
          intro r' hr' hk'
          rcases List.mem_cons.mp hr' with rfl | hmem
          · omega
          · exact hm3 r' hmem hk'
      · rw [if_neg hk] at h
        cases h
        rcases ih hrec with ⟨hm1, hm2, hm3⟩
        refine ⟨List.mem_cons_of_mem _ hm1, hm2, ?_⟩
        intro r' hr' hk'
        rcases List.mem_cons.mp hr' with rfl | hmem
        · exact absurd hk' hk
        · exact hm3 r' hmem hk'

theorem filterMap_minFetch_map_key (rows : List PosRow) :
    ∀ ks : List (Option String × Int), (∀ k ∈ ks, k ∈ rows.map rowKey) →
      (ks.filterMap (fun k => minFetchRow k rows)).map rowKey = ks := by
  intro ks
  induction ks with
  | nil => intro _; rfl
  | cons k ks ih =>
    intro hmem
    have hk : k ∈ rows.map rowKey := hmem k (List.mem_cons_self _ _)
    rcases List.mem_map.mp hk with ⟨r, hr, hkey⟩
    rcases minFetchRow_isSome ⟨r, hr, hkey⟩ with ⟨m, hm⟩
    rw [List.filterMap_cons, hm]
    simp only [List.map_cons]
    rw [(minFetchRow_spec hm).2.1]
    rw [ih (fun k' hk' => hmem k' (List.mem_cons_of_mem _ hk'))]

theorem dedupRows_map_key (rows : List PosRow) :
    (dedupRows rows).map rowKey = (rows.map rowKey).dedup := by
  unfold dedupRows
  exact filterMap_minFetch_map_key rows _ (fun k hk => List.mem_dedup.mp hk)

theorem dedupRows_sub_and_min (rows : List PosRow) :
    ∀ r ∈ dedupRows rows, r ∈ rows ∧
      ∀ r' ∈ rows, rowKey r' = rowKey r → r.fetch_timestamp ≤ r'.fetch_timestamp := by
  intro r hr
  rcases List.mem_filterMap.mp hr with ⟨k, _, hm⟩
  rcases minFetchRow_spec hm with ⟨h1, h2, h3⟩
  exact ⟨h1, fun r' hr' hk' => h3 r' hr' (by rw [hk', h2])⟩

/-- Two sample rows sharing `(trip_instance_id, observed_time)` but with
different fetch times (`sampA` fetched first). -/
def sampA : PosRow :=
  ⟨some ("T"), some ("trip1"), some ("R1"), 0, some ("V1"), 5, 1, 0, 0⟩

/-- Same key as `sampA`, later fetch time. -/
def sampB : PosRow :=
  ⟨some ("T"), some ("trip1"), some ("R1"), 0, some ("V1"), 5, 2, 0, 0⟩

/-- Same trip instance, later observed time. -/
def sampC : PosRow :=
  ⟨some ("T"), some ("trip1"), some ("R1"), 0, some ("V1"), 9, 3, 0, 0⟩

/-- C3 counterexample.  For two rows sharing
`(trip_instance_id, observed_time)` with fetch times 1 and 2, the dedup
window (`ROW_NUMBER ... ORDER BY fetch_timestamp`, keeping `rn = 1`)
keeps the row with the EARLIEST fetch time, not the latest one claimed. -/
theorem C3_counterexample :
    dedupRows [sampA, sampB] = [sampA] ∧
    sampA.fetch_timestamp < sampB.fetch_timestamp := by
  refine ⟨by decide, by decide⟩

theorem countP_eq_one_of_nodup_mem {α : Type} [DecidableEq α] {l : List α}
    (hn : l.Nodup) {a : α} (ha : a ∈ l) :
    l.countP (fun x => decide (x = a)) = 1 := by
  induction l with
  | nil => cases ha
  | cons b t ih =>
    rw [List.countP_cons]
    rcases List.mem_cons.mp ha with rfl | hat
    · have hnot : a ∉ t := (List.nodup_cons.mp hn).1
      have hz : t.countP (fun x => decide (x = a)) = 0 :=
        List.countP_eq_zero.mpr (fun x hx => by
          simp only [decide_eq_true_eq]
          rintro rfl
          exact hnot hx)
      simp [hz]
    · have hba : b ≠ a := by
        rintro rfl
        exact (List.nodup_cons.mp hn).1 hat
      have h1 : t.countP (fun x => decide (x = a)) = 1 :=
        ih (List.nodup_cons.mp hn).2 hat
      simp [h1, hba]

/-- C3 amended.  Step 1 of the SQL-only builder dedups to exactly one row
per `(trip_instance_id, observed_time)` pair, and whenever several rows
share that pair the row with the EARLIEST `fetch_time` is the one kept
(the window orders by `fetch_timestamp` ascending and keeps `rn = 1`). -/
theorem C3_dedup_earliest_fetch (rows : List PosRow) :
    (∀ k : Option String × Int,
      ((dedupRows rows).map rowKey).countP (fun x => decide (x = k)) =
        if k ∈ rows.map rowKey then 1 else 0) ∧
    (∀ r ∈ dedupRows rows, r ∈ rows ∧
      ∀ r' ∈ rows, rowKey r' = rowKey r →
        r.fetch_timestamp ≤ r'.fetch_timestamp) := by
  constructor
  · intro k
    rw [dedupRows_map_key]
    by_cases hk : k ∈ rows.map rowKey
    · rw [if_pos hk]
      exact countP_eq_one_of_nodup_mem (rows.map rowKey).nodup_dedup
        (List.mem_dedup.mpr hk)
    · rw [if_neg hk]
      exact List.countP_eq_zero.mpr (fun x hx => by
        simp only [decide_eq_true_eq]
        rintro rfl
        exact hk (List.mem_dedup.mp hx))
  · exact dedupRows_sub_and_min rows

/-- Witness for `C3_dedup_earliest_fetch` on the concrete two-row input. -/
theorem C3_dedup_earliest_fetch_witness :
    ((dedupRows [sampA, sampB]).map rowKey).countP
      (fun x => decide (x = (some ("T"), (5 : Int)))) = 1 ∧
    sampA ∈ [sampA, sampB] ∧
    sampA.fetch_timestamp ≤ sampB.fetch_timestamp := by
  refine ⟨?_, ?_, ?_⟩
  · have h := (C3_dedup_earliest_fetch [sampA, sampB]).1 (some ("T"), (5 : Int))
    rw [h]
    decide
  · have h := (C3_dedup_earliest_fetch [sampA, sampB]).2 sampA (by decide)
    exact h.1
  · exact ((C3_dedup_earliest_fetch [sampA, sampB]).2 sampA (by decide)).2 sampB
      (by decide) (by decide)

/-- `last_ts_by_trip.get(k)` on the assoc-list model of the Python dict
(insertion order preserved). -/
def lookupLast (m : List (String × Int)) (k : String) : Option Int :=
  (m.find? (fun p => p.1 == k)).map (fun p => p.2)

/-- `last_ts_by_trip[k] = v`. -/
def setLast (m : List (String × Int)) (k : String) (v : Int) : List (String × Int) :=
  if m.any (fun p => p.1 == k) then
    m.map (fun p => if p.1 == k then (p.1, v) else p)
  else m ++ [(k, v)]

/-- `trips_data.setdefault(k, []).append(r)`. -/
def appendTripRow (td : List (String × List PosRow)) (k : String) (r : PosRow) :
    List (String × List PosRow) :=
  if td.any (fun p => p.1 == k) then
    td.map (fun p => if p.1 == k then (p.1, p.2 ++ [r]) else p)
  else td ++ [(k, [r])]

/-- `trips_data.get(k, [])`. -/
def lookupTrips (td : List (String × List PosRow)) (k : String) : List PosRow :=
  ((td.find? (fun p => p.1 == k)).map (fun p => p.2)).getD []

/-- One iteration of the grouping loop of `_build_trajs_with_valhalla`
(lines 353-373): a row whose `entity_timestamp` is not strictly greater
than the last kept timestamp of its trip instance is skipped; otherwise it
is appended and the last timestamp updated.  Rows with no
`trip_instance_id` never reach the loop (`WHERE trip_instance_id IS NOT
NULL`); the embedding ignores them. -/
def valhallaGroupStep (st : List (String × Int) × List (String × List PosRow))
    (r : PosRow) : List (String × Int) × List (String × List PosRow) :=
  match r.trip_instance_id with
  | none => st
  | some k =>
    match lookupLast st.1 k with
    | some last =>
      if r.entity_timestamp ≤ last then st
      else (setLast st.1 k r.entity_timestamp, appendTripRow st.2 k r)
    | none => (setLast st.1 k r.entity_timestamp, appendTripRow st.2 k r)

/-- The `trips_data` mapping after the first pass of
`_build_trajs_with_valhalla`. -/
def valhallaTripsData (rows : List PosRow) : List (String × List PosRow) :=
  (rows.foldl valhallaGroupStep ([], [])).2

/-- The second pass (lines 430-437): while inserting a trip's matched
points into the temp table, drop any point whose timestamp is not strictly
greater than the previously inserted one. -/
def dropNonIncreasing (prev : Option Int) : List Int → List Int
  | [] => []
  | t :: rest =>
    match prev with
    | some p => if t ≤ p then dropNonIncreasing (some p) rest
                else t :: dropNonIncreasing (some t) rest
    | none => t :: dropNonIncreasing (some t) rest

theorem dropNonIncreasing_gt :
    ∀ (l : List Int) (p x : Int), x ∈ dropNonIncreasing (some p) l → p < x := by
  intro l
  induction l with
  | nil => simp [dropNonIncreasing]
  | cons t rest ih =>
    intro p x hx
    simp only [dropNonIncreasing] at hx
    by_cases h : t ≤ p
    · rw [if_pos h] at hx
      exact ih p x hx
    · rw [if_neg h] at hx
      rcases List.mem_cons.mp hx with rfl | hx'
      · omega
      · have := ih t x hx'
        omega

theorem dropNonIncreasing_sorted :
    ∀ (l : List Int) (prev : Option Int),
      List.Sorted (· < ·) (dropNonIncreasing prev l) := by
  intro l
  induction l with
  | nil => intro prev; simp [dropNonIncreasing]
  | cons t rest ih =>
    intro prev
    rcases prev with _ | p
    · simp only [dropNonIncreasing]
      rw [List.sorted_cons]
      exact ⟨fun x hx => dropNonIncreasing_gt rest t x hx, ih (some t)⟩
    · simp only [dropNonIncreasing]
      by_cases h : t ≤ p
      · rw [if_pos h]
        exact ih (some p)
      · rw [if_neg h]
        rw [List.sorted_cons]
        exact ⟨fun x hx => dropNonIncreasing_gt rest t x hx, ih (some t)⟩

/-- The timestamp sequence stored for trip instance `t` by the
Valhalla path: first-pass grouping, the `len(points) < 2` skip, successful
map matching (which preserves the per-point timestamps), the second-pass
drop, and the final `array_agg(... ORDER BY getTimestamp)` with
`HAVING COUNT(*) > 1`. -/
def storedTimesValhalla (rows : List PosRow) (t : String) : List Int :=
  let pts := lookupTrips (valhallaTripsData rows) t
  if pts.length < 2 then []
  else
    let kept := dropNonIncreasing none (pts.map (fun r => r.entity_timestamp))
    let agg := List.insertionSort (· ≤ ·) kept
    if agg.length > 1 then agg else []

/-- The rows of `dedup` belonging to one trip instance (SQL-only path). -/
def tripRows (rows : List PosRow) (t : String) : List PosRow :=
  rows.filter (fun r => decide (r.trip_instance_id = some t))

/-- The timestamp sequence stored for trip instance `t` by the SQL-only
path: dedup (step 1), `array_agg(point ORDER BY getTimestamp(point))`
with `HAVING COUNT(*) > 1`. -/
def storedTimesSqlOnly (rows : List PosRow) (t : String) : List Int :=
  let ts := (tripRows (dedupRows rows) t).map (fun r => r.entity_timestamp)
  if ts.length > 1 then List.insertionSort (· ≤ ·) ts else []

theorem sorted_lt_nodup {l : List Int} (h : List.Sorted (· < ·) l) : l.Nodup :=
  h.imp (fun hlt => ne_of_lt hlt)

theorem insertionSort_strict {l : List Int} (h : l.Nodup) :
    List.Sorted (· < ·) (List.insertionSort (· ≤ ·) l) := by
  have hs : List.Sorted (· ≤ ·) (List.insertionSort (· ≤ ·) l) :=
    List.sorted_insertionSort _ l
  have hperm : List.Perm l (List.insertionSort (· ≤ ·) l) :=
    (List.perm_insertionSort _ l).symm
  exact List.Sorted.lt_of_le hs (hperm.nodup h)

theorem tripTimes_nodup (rows : List PosRow) (t : String) :
    ((tripRows (dedupRows rows) t).map (fun r => r.entity_timestamp)).Nodup := by
  have hkeys : ((dedupRows rows).map rowKey).Nodup := by
    rw [dedupRows_map_key]
    exact (rows.map rowKey).nodup_dedup
  have hsub : List.Sublist (tripRows (dedupRows rows) t) (dedupRows rows) :=
    List.filter_sublist _
  have hkeysub : ((tripRows (dedupRows rows) t).map rowKey).Nodup :=
    (hsub.map rowKey).nodup hkeys
  have hform : (tripRows (dedupRows rows) t).map rowKey =
      ((tripRows (dedupRows rows) t).map (fun r => r.entity_timestamp)).map
        (fun x => (some t, x)) := by
    rw [List.map_map]
    apply List.map_congr_left
    intro r hr
    have hmem := List.mem_filter.mp hr
    have : r.trip_instance_id = some t := by
      simpa using hmem.2
    simp [rowKey, this, Function.comp]
  rw [hform] at hkeysub
  exact hkeysub.of_map _

/-- C2.  Every trajectory stored by the builder — by the Valhalla path and
by the SQL-only path — carries a strictly increasing timestamp sequence;
a sample whose observed timestamp is not greater than the last kept one
for its trip instance is dropped by the grouping pass; and the duplicate
scenario (two samples of one trip instance at instant 5, one at 9) stores
exactly one point at instant 5. -/
theorem C2_strictly_increasing :
    (∀ (rows : List PosRow) (t : String),
      List.Sorted (· < ·) (storedTimesValhalla rows t)) ∧
    (∀ (rows : List PosRow) (t : String),
      List.Sorted (· < ·) (storedTimesSqlOnly rows t)) ∧
    (∀ (rows : List PosRow) (r : PosRow) (k : String) (last : Int),
      r.trip_instance_id = some k →
      lookupLast (rows.foldl valhallaGroupStep ([], [])).1 k = some last →
      r.entity_timestamp ≤ last →
      valhallaTripsData (rows ++ [r]) = valhallaTripsData rows) ∧
    (storedTimesValhalla [sampA, sampB, sampC] ("T") = [5, 9] ∧
     storedTimesSqlOnly [sampA, sampB, sampC] ("T") = [5, 9] ∧
     (storedTimesValhalla [sampA, sampB, sampC] ("T")).countP
       (fun x => decide (x = 5)) = 1) := by
  refine ⟨?_, ?_, ?_, ?_⟩
  · intro rows t
    show List.Sorted (· < ·)
      (if (lookupTrips (valhallaTripsData rows) t).length < 2 then []
       else
         if (List.insertionSort (· ≤ ·) (dropNonIncreasing none
              ((lookupTrips (valhallaTripsData rows) t).map
                (fun r => r.entity_timestamp)))).length > 1
         then List.insertionSort (· ≤ ·) (dropNonIncreasing none
              ((lookupTrips (valhallaTripsData rows) t).map
                (fun r => r.entity_timestamp)))
         else [])
    split
    · simp
    · split
      · exact insertionSort_strict
          (sorted_lt_nodup (dropNonIncreasing_sorted _ none))
      · simp
  · intro rows t
    show List.Sorted (· < ·)
      (if ((tripRows (dedupRows rows) t).map
            (fun r => r.entity_timestamp)).length > 1
       then List.insertionSort (· ≤ ·)
         ((tripRows (dedupRows rows) t).map (fun r => r.entity_timestamp))
       else [])
    split
    · exact insertionSort_strict (tripTimes_nodup rows t)
    · simp
  · intro rows r k last hk hlast hle
    unfold valhallaTripsData
    rw [List.foldl_append]
    simp only [List.foldl_cons, List.foldl_nil]
    set ST := List.foldl valhallaGroupStep ([], []) rows with hST
    simp only [valhallaGroupStep, hk, hlast, if_pos hle]
  · refine ⟨by decide, by decide, by decide⟩

/-- Witness for `C2_strictly_increasing`: the grouping pass drops a
second sample carrying the timestamp already kept for trip "T". -/
theorem C2_strictly_increasing_witness :
    valhallaTripsData [sampA, sampB] = valhallaTripsData [sampA] := by
  exact C2_strictly_increasing.2.2.1 [sampA] sampB ("T") 5 (by decide) (by decide)
    (by decide)

/-- The derived fields of a `realtime_trips_mdb` row.  `tripSeq` is the
`tgeompoint` sequence (timestamped matched points), `traj` the stored
geometry, `updated_at` the wall-clock time of the writing invocation
(`now()`), passed in explicitly. -/
structure TrajFields where
  trip_id : Option String
  route_id : Option String
  service_date : Option Int
  vehicle_id : Option String
  tripSeq : List (Int × ℚ × ℚ)
  traj : List (ℚ × ℚ)
  starttime : Option Int
  updated_at : Int
deriving DecidableEq, Repr

/-- A `realtime_trips_mdb` row, uniquely keyed by `trip_instance_id`. -/
structure TrajRow where
  key : String
  f : TrajFields
deriving DecidableEq, Repr

/-- `ON CONFLICT (trip_instance_id) DO UPDATE SET trip = ..., traj = ...,
service_date = ..., route_id = ..., vehicle_id = ..., starttime = ...,
updated_at = now()`: every derived field of the existing row is replaced
by the excluded row's value — except `trip_id`, which the SET list omits. -/
def mergeRow (old new : TrajRow) : TrajRow :=
  ⟨old.key, { new.f with trip_id := old.f.trip_id }⟩

/-- Insert one computed row, replacing on key conflict (never appending a
second row for an existing key). -/
def upsertOne (tbl : List TrajRow) (r : TrajRow) : List TrajRow :=
  if tbl.any (fun x => x.key == r.key) then
    tbl.map (fun x => if x.key == r.key then mergeRow x r else x)
  else tbl ++ [r]

/-- The whole window's upsert batch. -/
def upsertRows (tbl : List TrajRow) (rs : List TrajRow) : List TrajRow :=
  rs.foldl upsertOne tbl

/-- Key `k` has a row in the table. -/
def keyPresent (tbl : List TrajRow) (k : String) : Prop :=
  ∃ x ∈ tbl, x.key = k

theorem any_key_iff (tbl : List TrajRow) (k : String) :
    tbl.any (fun x => x.key == k) = true ↔ keyPresent tbl k := by
  simp [List.any_eq_true, keyPresent]

theorem mergeRow_key (old new : TrajRow) : (mergeRow old new).key = old.key := rfl

theorem mergeRow_merge (x r : TrajRow) : mergeRow (mergeRow x r) r = mergeRow x r := rfl

theorem mergeRow_self (r : TrajRow) : mergeRow r r = r := rfl

theorem keyPresent_upsertOne_self (tbl : List TrajRow) (r : TrajRow) :
    keyPresent (upsertOne tbl r) r.key := by
  unfold upsertOne
  by_cases hp : tbl.any (fun x => x.key == r.key) = true
  · rw [if_pos hp]
    rcases (any_key_iff tbl r.key).mp hp with ⟨x, hx, hk⟩
    refine ⟨mergeRow x r, List.mem_map.mpr ⟨x, hx, ?_⟩, by rw [mergeRow_key]; exact hk⟩
    rw [if_pos (by simp [hk])]
  · rw [if_neg hp]
    exact ⟨r, List.mem_append.mpr (Or.inr (List.mem_cons_self _ _)), rfl⟩

theorem keyPresent_upsertOne_mono {tbl : List TrajRow} {k : String}
    (h : keyPresent tbl k) (s : TrajRow) : keyPresent (upsertOne tbl s) k := by
  rcases h with ⟨x, hx, hk⟩
  unfold upsertOne
  by_cases hp : tbl.any (fun y => y.key == s.key) = true
  · rw [if_pos hp]
    by_cases hxs : x.key == s.key
    · exact ⟨mergeRow x s, List.mem_map.mpr ⟨x, hx, by rw [if_pos hxs]⟩,
        by rw [mergeRow_key]; exact hk⟩
    · exact ⟨x, List.mem_map.mpr ⟨x, hx, by rw [if_neg hxs]⟩, hk⟩
  · rw [if_neg hp]
    exact ⟨x, List.mem_append.mpr (Or.inl hx), hk⟩

theorem keyPresent_map_update (tbl : List TrajRow) (r : TrajRow) (k : String) :
    keyPresent (tbl.map (fun x => if x.key == r.key then mergeRow x r else x)) k ↔
      keyPresent tbl k := by
  constructor
  · rintro ⟨y, hy, hk⟩
    rcases List.mem_map.mp hy with ⟨x, hx, rfl⟩
    refine ⟨x, hx, ?_⟩
    by_cases hxs : x.key == r.key
    · rw [if_pos hxs] at hk
      rw [mergeRow_key] at hk
      exact hk
    · rw [if_neg hxs] at hk
      exact hk
  · rintro ⟨x, hx, hk⟩
    by_cases hxs : x.key == r.key
    · exact ⟨mergeRow x r, List.mem_map.mpr ⟨x, hx, by rw [if_pos hxs]⟩,
        by rw [mergeRow_key]; exact hk⟩
    · exact ⟨x, List.mem_map.mpr ⟨x, hx, by rw [if_neg hxs]⟩, hk⟩

theorem upsertOne_idem (tbl : List TrajRow) (r : TrajRow) :
    upsertOne (upsertOne tbl r) r = upsertOne tbl r := by
  have hp2 : keyPresent (upsertOne tbl r) r.key := keyPresent_upsertOne_self tbl r
  unfold upsertOne
  by_cases hp : tbl.any (fun x => x.key == r.key) = true
  · rw [if_pos hp]
    rw [if_pos (by
      rw [any_key_iff]
      rw [keyPresent_map_update]
      exact (any_key_iff tbl r.key).mp hp)]
    rw [List.map_map]
    apply List.map_congr_left
    intro x _
    by_cases hxs : x.key == r.key
    · simp only [Function.comp, if_pos hxs]
      rw [if_pos (by rw [mergeRow_key]; exact hxs)]
      rw [mergeRow_merge]
    · simp only [Function.comp, if_neg hxs]
  · rw [if_neg hp]
    rw [if_pos (by
      rw [any_key_iff]
      exact ⟨r, List.mem_append.mpr (Or.inr (List.mem_cons_self _ _)), rfl⟩)]
    rw [List.map_append]
    have h1 : tbl.map (fun x => if x.key == r.key then mergeRow x r else x) = tbl := by
      have := List.map_congr_left (l := tbl)
        (f := fun x => if x.key == r.key then mergeRow x r else x) (g := id)
        (fun x hx => by
          simp only []
          rw [if_neg (fun hc => hp (List.any_eq_true.mpr ⟨x, hx, hc⟩))]
          rfl)
      rw [this, List.map_id]
    have h2 : [r].map (fun x => if x.key == r.key then mergeRow x r else x) = [r] := by
      simp [mergeRow_self]
    rw [h1, h2]

theorem upsertOne_comm (tbl : List TrajRow) (r s : TrajRow) (hrs : s.key ≠ r.key)
    (hr : keyPresent tbl r.key) :
    upsertOne (upsertOne tbl s) r = upsertOne (upsertOne tbl r) s := by
  have hpr : tbl.any (fun x => x.key == r.key) = true := (any_key_iff _ _).mpr hr
  have h2 : upsertOne tbl r =
      tbl.map (fun x => if x.key == r.key then mergeRow x r else x) := by
    unfold upsertOne
    rw [if_pos hpr]
  by_cases hps : tbl.any (fun x => x.key == s.key) = true
  · have h1 : upsertOne tbl s =
        tbl.map (fun x => if x.key == s.key then mergeRow x s else x) := by
      unfold upsertOne
      rw [if_pos hps]
    have hks : (tbl.map (fun x => if x.key == s.key then mergeRow x s else x)).any
        (fun x => x.key == r.key) = true := by
      rw [any_key_iff]
      exact (keyPresent_map_update tbl s r.key).mpr hr
    have hkr : (tbl.map (fun x => if x.key == r.key then mergeRow x r else x)).any
        (fun x => x.key == s.key) = true := by
      rw [any_key_iff]
      exact (keyPresent_map_update tbl r s.key).mpr ((any_key_iff _ _).mp hps)
    rw [h1, h2]
    unfold upsertOne
    rw [if_pos hks, if_pos hkr]
    rw [List.map_map, List.map_map]
    apply List.map_congr_left
    intro x _
    simp only [Function.comp]
    by_cases hxs : x.key = s.key
    · have hxr : ¬x.key = r.key := by
        rw [hxs]
        exact hrs
      simp [hxs, hxr, mergeRow_key, hrs]
    · by_cases hxr : x.key = r.key
      · have hne : ¬x.key = s.key := hxs
        have hrs' : ¬r.key = s.key := fun h => hrs h.symm
        simp [hxr, hne, mergeRow_key, hrs']
      · simp [hxs, hxr]
  · have h1 : upsertOne tbl s = tbl ++ [s] := by
      unfold upsertOne
      rw [if_neg hps]
    have hks : (tbl ++ [s]).any (fun x => x.key == r.key) = true := by
      rw [any_key_iff]
      rcases hr with ⟨x, hx, hk⟩
      exact ⟨x, List.mem_append.mpr (Or.inl hx), hk⟩
    have hkr : ¬(tbl.map (fun x => if x.key == r.key then mergeRow x r else x)).any
        (fun x => x.key == s.key) = true := by
      intro hc
      rw [any_key_iff] at hc
      exact hps ((any_key_iff _ _).mpr ((keyPresent_map_update tbl r s.key).mp hc))
    rw [h1, h2]
    unfold upsertOne
    rw [if_pos hks, if_neg hkr]
    rw [List.map_append]
    have hgs : [s].map (fun x => if x.key == r.key then mergeRow x r else x) = [s] := by
      simp [hrs]
    rw [hgs]

theorem upsertOne_foldl_comm (rest : List TrajRow) :
    ∀ (tbl : List TrajRow) (r : TrajRow), keyPresent tbl r.key →
      (∀ s ∈ rest, s.key ≠ r.key) →
      upsertOne (upsertRows tbl rest) r = upsertRows (upsertOne tbl r) rest := by
  induction rest with
  | nil => intro tbl r _ _; rfl
  | cons s rest ih =>
    intro tbl r hr hne
    show upsertOne (upsertRows (upsertOne tbl s) rest) r =
      upsertRows (upsertOne (upsertOne tbl r) s) rest
    rw [ih (upsertOne tbl s) r (keyPresent_upsertOne_mono hr s)
      (fun s' hs' => hne s' (List.mem_cons_of_mem _ hs'))]
    rw [upsertOne_comm tbl r s (hne s (List.mem_cons_self _ _)) hr]

theorem upsert_idempotent (rs : List TrajRow) :
    ∀ tbl : List TrajRow, (rs.map (fun r => r.key)).Nodup →
      upsertRows (upsertRows tbl rs) rs = upsertRows tbl rs := by
  induction rs with
  | nil => intro tbl _; rfl
  | cons r rest ih =>
    intro tbl hnd
    have hnd' : (rest.map (fun r => r.key)).Nodup := (List.nodup_cons.mp hnd).2
    have hne : ∀ s ∈ rest, s.key ≠ r.key := by
      intro s hs hc
      apply (List.nodup_cons.mp hnd).1
      show r.key ∈ List.map (fun r => r.key) rest
      rw [← hc]
      exact List.mem_map.mpr ⟨s, hs, rfl⟩
    show upsertRows (upsertOne (upsertRows (upsertOne tbl r) rest) r) rest =
      upsertRows (upsertOne tbl r) rest
    rw [upsertOne_foldl_comm rest (upsertOne tbl r) r
      (keyPresent_upsertOne_self tbl r) hne]
    rw [upsertOne_idem]
    exact ih (upsertOne tbl r) hnd'

theorem mem_upsertOne_key {tbl : List TrajRow} {r x : TrajRow}
    (h : x ∈ upsertOne tbl r) : x.key ∈ tbl.map (fun y => y.key) ∨ x.key = r.key := by
  unfold upsertOne at h
  by_cases hp : tbl.any (fun y => y.key == r.key) = true
  · rw [if_pos hp] at h
    rcases List.mem_map.mp h with ⟨y, hy, rfl⟩
    by_cases hys : y.key == r.key
    · rw [if_pos hys]
      left
      rw [mergeRow_key]
      exact List.mem_map.mpr ⟨y, hy, rfl⟩
    · rw [if_neg hys]
      exact Or.inl (List.mem_map.mpr ⟨y, hy, rfl⟩)
  · rw [if_neg hp] at h
    rcases List.mem_append.mp h with hx | hx
    · exact Or.inl (List.mem_map.mpr ⟨x, hx, rfl⟩)
    · rcases List.mem_cons.mp hx with rfl | hc
      · exact Or.inr rfl
      · cases hc

theorem mem_upsertRows_key (rs : List TrajRow) :
    ∀ (tbl : List TrajRow) (x : TrajRow), x ∈ upsertRows tbl rs →
      x.key ∈ tbl.map (fun y => y.key) ∨ x.key ∈ rs.map (fun y => y.key) := by
  induction rs with
  | nil => intro tbl x hx; exact Or.inl (List.mem_map.mpr ⟨x, hx, rfl⟩)
  | cons r rest ih =>
    intro tbl x hx
    rcases ih (upsertOne tbl r) x hx with h | h
    · rcases List.mem_map.mp h with ⟨y, hy, hk⟩
      rcases mem_upsertOne_key hy with h' | h'
      · exact Or.inl (hk ▸ h')
      · refine Or.inr ?_
        rw [← hk, h']
        simp
    · exact Or.inr (List.mem_cons_of_mem _ h)

/-- The `WHERE` clause of the builder's sample SELECT:
`trip_instance_id IS NOT NULL`, `entity_timestamp BETWEEN start AND end`
(SQL BETWEEN is inclusive on both ends), and the route filter
(`filter_routes = FALSE OR route_id = ANY(route_ids)`; a NULL `route_id`
never matches `ANY`). -/
def rowInWindow (start_ts end_ts : Int) (applies : Bool) (route_ids : List String)
    (r : PosRow) : Bool :=
  r.trip_instance_id.isSome &&
  (decide (start_ts ≤ r.entity_timestamp) && decide (r.entity_timestamp ≤ end_ts)) &&
  (!applies || (match r.route_id with
    | some rid => route_ids.contains rid
    | none => false))

/-- The window's selected samples. -/
def windowRows (start_ts end_ts : Int) (applies : Bool) (route_ids : List String)
    (rows : List PosRow) : List PosRow :=
  rows.filter (rowInWindow start_ts end_ts applies route_ids)

/-- The distinct trip instances of a row set (`GROUP BY trip_instance_id`). -/
def tripsOf (rows : List PosRow) : List String :=
  (rows.filterMap (fun r => r.trip_instance_id)).dedup

/-- `(array_agg(DISTINCT x) FILTER (WHERE x IS NOT NULL))[1]`, the
aggregation order being unspecified in SQL and modelled as first
occurrence after dedup. -/
def firstSome (l : List (Option String)) : Option String :=
  (l.filterMap id).dedup.head?

/-- The rows the SQL-only builder computes for one window: dedup (step 1),
group by trip instance with `HAVING COUNT(*) > 1`, order each group by
timestamp, apply the tiered per-point map matching (abstracted as the
environment function `geom`, the CASE over GTFS shapes / scheduled
trajectories / raw geometry), and derive the stored fields;
`now` is the wall-clock value of `now()` for this invocation. -/
def sqlComputedRows (geom : PosRow → ℚ × ℚ) (now : Int) (rows : List PosRow) :
    List TrajRow :=
  let dd := dedupRows rows
  (tripsOf dd).filterMap (fun t =>
    let trs := tripRows dd t
    if trs.length ≤ 1 then none
    else
      let sorted := List.insertionSort
        (fun a b => a.entity_timestamp ≤ b.entity_timestamp) trs
      let seq := sorted.map (fun r => (r.entity_timestamp, geom r))
      some ⟨t,
        { trip_id := firstSome (trs.map (fun r => r.trip_id)),
          route_id := firstSome (trs.map (fun r => r.route_id)),
          service_date := (trs.map (fun r => r.service_date)).dedup.head?,
          vehicle_id := firstSome (trs.map (fun r => r.vehicle_id)),
          tripSeq := seq,
          traj := seq.map (fun p => p.2),
          starttime := (seq.map (fun p => p.1)).head?,
          updated_at := now }⟩)

/-- `build_trajs`' effect on the `realtime_trips_mdb` table: optional
`TRUNCATE TABLE realtime_trips_mdb` followed by the window's upsert
batch. -/
def buildTrajsTable (prior : List TrajRow) (truncate_table : Bool)
    (newRows : List TrajRow) : List TrajRow :=
  upsertRows (if truncate_table then [] else prior) newRows

/-- `parse_args`: `--keep-data` is `action="store_false"` into `truncate`
with default `True`, so `truncate_table` is the negation of the flag's
presence. -/
def truncateArg (keep_data_passed : Bool) : Bool :=
  !keep_data_passed

theorem sqlComputedRows_keys_nodup (geom : PosRow → ℚ × ℚ) (now : Int)
    (rows : List PosRow) :
    ((sqlComputedRows geom now rows).map (fun r => r.key)).Nodup := by
  have hsub : ∀ (ks : List String)
      (f : String → Option TrajRow),
      (∀ t r, f t = some r → r.key = t) →
      List.Sublist ((ks.filterMap f).map (fun r => r.key)) ks := by
    intro ks f hf
    induction ks with
    | nil => simp
    | cons k ks ih =>
      rw [List.filterMap_cons]
      rcases hfk : f k with _ | r
      · exact ih.trans (List.sublist_cons_self _ _)
      · rw [List.map_cons, hf k r hfk]
        exact ih.cons₂ k
  have hnd : (tripsOf (dedupRows rows)).Nodup := List.nodup_dedup _
  apply List.Nodup.sublist _ hnd
  apply hsub
  intro t r hr
  simp only [] at hr
  by_cases hlen : (tripRows (dedupRows rows) t).length ≤ 1
  · rw [if_pos hlen] at hr
    cases hr
  · rw [if_neg hlen] at hr
    cases hr
    rfl

/-- C5.  Trajectory building is idempotent: running the builder twice over
an identical window with identical input samples (and the same matching
environment and clock value) leaves the trajectory table with identical
stored rows, because the upsert keyed by `trip_instance_id` replaces all
derived fields on conflict instead of appending a second row.  This holds
with and without the initial truncate. -/
theorem C5_build_idempotent (geom : PosRow → ℚ × ℚ) (now : Int)
    (rows : List PosRow) (prior : List TrajRow) (truncate_table : Bool)
    (start_ts end_ts : Int) (applies : Bool) (route_ids : List String) :
    buildTrajsTable
      (buildTrajsTable prior truncate_table
        (sqlComputedRows geom now (windowRows start_ts end_ts applies route_ids rows)))
      truncate_table
      (sqlComputedRows geom now (windowRows start_ts end_ts applies route_ids rows)) =
    buildTrajsTable prior truncate_table
      (sqlComputedRows geom now (windowRows start_ts end_ts applies route_ids rows)) := by
  unfold buildTrajsTable
  rcases truncate_table with _ | _
  · simp only [if_neg Bool.false_ne_true]
    exact upsert_idempotent _ prior (sqlComputedRows_keys_nodup _ _ _)
  · simp only [if_pos rfl, if_true]

/-- C6.  Unless `truncate_table=False` is passed (the `--keep-data` flag),
`build_trajs` first empties the whole trajectory table: the resulting
table is exactly the window's upsert batch applied to an empty table,
every surviving row's key comes from the newly computed rows, and any
prior row whose trip instance is not among the computed ones — in
particular one lying entirely outside the requested window — is gone. -/
theorem C6_truncate_drops_all (prior : List TrajRow) (R : List TrajRow) :
    (truncateArg false = true ∧ truncateArg true = false) ∧
    buildTrajsTable prior true R = upsertRows [] R ∧
    (∀ x ∈ buildTrajsTable prior true R, x.key ∈ R.map (fun y => y.key)) ∧
    (∀ r ∈ prior, r.key ∉ R.map (fun y => y.key) →
      r ∉ buildTrajsTable prior true R) := by
  refine ⟨⟨rfl, rfl⟩, rfl, ?_, ?_⟩
  · intro x hx
    rcases mem_upsertRows_key R [] x hx with h | h
    · simp at h
    · exact h
  · intro r _ hk hmem
    apply hk
    rcases mem_upsertRows_key R [] r hmem with h | h
    · simp at h
    · exact h

/-- Witness for `C6_truncate_drops_all`: a prior row whose trip instance
is outside the rebuilt set does not survive the truncating rebuild. -/
theorem C6_truncate_drops_all_witness :
    (⟨("OLD"), ⟨none, none, none, none, [], [], none, 0⟩⟩ : TrajRow) ∉
      buildTrajsTable [⟨("OLD"), ⟨none, none, none, none, [], [], none, 0⟩⟩] true
        [⟨("NEW"), ⟨none, none, none, none, [], [], none, 1⟩⟩] := by
  exact (C6_truncate_drops_all
    [⟨("OLD"), ⟨none, none, none, none, [], [], none, 0⟩⟩]
    [⟨("NEW"), ⟨none, none, none, none, [], [], none, 1⟩⟩]).2.2.2
    ⟨("OLD"), ⟨none, none, none, none, [], [], none, 0⟩⟩
    (by decide) (by decide)

/-- Outcome of one feed HTTP request in `GTFSRealtimeIngestor._request_feed`
(lines 68-79): `session.get` may raise a connection/timeout error and
`response.raise_for_status()` raises on a non-success status; both are
modelled as `httpError`.  On success the decoded feed yields some number
of persisted rows. -/
inductive FeedOutcome where
  | ok (persisted : Nat)
  | httpError
deriving DecidableEq, Repr

/-- The environment of one scheduled poll: the two feeds fetched by
`poll_once` (vehicle positions first, then trip updates). -/
structure PollEnv where
  vehicleFeed : FeedOutcome
  tripFeed : FeedOutcome
deriving DecidableEq, Repr

/-- `GTFSRealtimeIngestor.poll_once`: fetches and persists the vehicle
feed, then the trip-update feed.  `_request_feed` contains no exception
handler, so an HTTP failure raises out of `poll_once`. -/
def poll_once (env : PollEnv) : Except Unit (Nat × Nat) :=
  match env.vehicleFeed with
  | .httpError => .error ()
  | .ok v =>
    match env.tripFeed with
    | .httpError => .error ()
    | .ok t => .ok (v, t)

/-- Result of the ingestion `main`: the per-poll persisted counts of the
polls that completed, whether the loop was ended by a propagating
exception, and whether the `finally` block released the connection and
session. -/
structure MainResult where
  completedPolls : List (Nat × Nat)
  abortedByError : Bool
  resourcesClosed : Bool
deriving DecidableEq, Repr

/-- The multi-poll loop of `main` (`ingest_realtime.py`, lines 453-464):
`for idx in range(max_polls): ingestor.poll_once()` inside a `try` whose
only handler catches `KeyboardInterrupt`; an exception raised by
`poll_once` propagates out of the loop (no per-poll handler exists), and
the `finally` always closes the ingestor.  The inter-poll sleep does not
affect which polls run and is not modelled. -/
def runMain : List PollEnv → MainResult
  | [] => ⟨[], false, true⟩
  | e :: rest =>
    match poll_once e with
    | .error _ => ⟨[], true, true⟩
    | .ok c =>
      let m := runMain rest
      ⟨c :: m.completedPolls, m.abortedByError, true⟩

/-- C8 counterexample.  With two scheduled polls whose first fetch fails,
the second scheduled poll does not run: the loop records zero completed
polls and ends by a propagating error, contradicting the claim that the
loop continues and the next scheduled poll still runs. -/
theorem C8_counterexample :
    (runMain [⟨.httpError, .ok 0⟩, ⟨.ok 1, .ok 1⟩]).completedPolls.length = 0 ∧
    (runMain [⟨.httpError, .ok 0⟩, ⟨.ok 1, .ok 1⟩]).abortedByError = true := by
  refine ⟨by decide, by decide⟩

/-- C8 amended.  A feed HTTP failure during one poll is not contained to
that poll: `poll_once` raises, nothing in the loop catches it, so the
whole run terminates after the polls that preceded the failure — later
scheduled polls never run — while the `finally` still releases the
resources. -/
theorem C8_failure_aborts_run (pre post : List PollEnv) (e : PollEnv)
    (hpre : ∀ p ∈ pre, p.vehicleFeed ≠ .httpError ∧ p.tripFeed ≠ .httpError)
    (he : e.vehicleFeed = .httpError ∨ e.tripFeed = .httpError) :
    (runMain (pre ++ e :: post)).completedPolls.length = pre.length ∧
    (runMain (pre ++ e :: post)).abortedByError = true ∧
    (runMain (pre ++ e :: post)).resourcesClosed = true := by
  induction pre with
  | nil =>
    have herr : poll_once e = .error () := by
      rcases he with h | h
      · unfold poll_once
        rw [h]
      · unfold poll_once
        rcases hv : e.vehicleFeed with _ | _
        · rw [h]
        · rfl
    have hstep : runMain ([] ++ e :: post) = ⟨[], true, true⟩ := by
      simp only [List.nil_append, runMain, herr]
    rw [hstep]
    exact ⟨rfl, rfl, rfl⟩
  | cons p pre ih =>
    rcases hpre p (List.mem_cons_self _ _) with ⟨hv, ht⟩
    rcases hvp : p.vehicleFeed with v | _
    · rcases htp : p.tripFeed with t | _
      · have hok : poll_once p = .ok (v, t) := by
          unfold poll_once
          rw [hvp, htp]
        have ihh := ih (fun q hq => hpre q (List.mem_cons_of_mem _ hq))
        have hstep : runMain ((p :: pre) ++ e :: post) =
            ⟨(v, t) :: (runMain (pre ++ e :: post)).completedPolls,
              (runMain (pre ++ e :: post)).abortedByError, true⟩ := by
          simp only [List.cons_append, runMain, hok]
          rfl
        rw [hstep]
        refine ⟨?_, ihh.2.1, rfl⟩
        simp only [List.length_cons]
        rw [ihh.1]
      · exact absurd htp ht
    · exact absurd hvp hv

/-- Witness for `C8_failure_aborts_run`: one successful poll, then a
failing fetch, then one more scheduled poll that never runs. -/
theorem C8_failure_aborts_run_witness :
    (runMain [⟨.ok 3, .ok 4⟩, ⟨.httpError, .ok 0⟩, ⟨.ok 1, .ok 1⟩]).completedPolls.length
        = 1 ∧
    (runMain [⟨.ok 3, .ok 4⟩, ⟨.httpError, .ok 0⟩, ⟨.ok 1, .ok 1⟩]).abortedByError
        = true ∧
    (runMain [⟨.ok 3, .ok 4⟩, ⟨.httpError, .ok 0⟩, ⟨.ok 1, .ok 1⟩]).resourcesClosed
        = true := by
  have h := C8_failure_aborts_run [⟨.ok 3, .ok 4⟩] [⟨.ok 1, .ok 1⟩] ⟨.httpError, .ok 0⟩
    (by intro p hp; rcases List.mem_cons.mp hp with rfl | hc
        · exact ⟨by decide, by decide⟩
        · cases hc)
    (Or.inl rfl)
  exact h

/-- Python `~x` on an int is `-x - 1`; `_decode_value`'s final step
`~(result >> 1) if (result & 1) else (result >> 1)` reassembles the
zig-zag-signed delta from the accumulated non-negative value. -/
def zigzagDecode (result : Nat) : Int :=
  if result &&& 1 = 1 then -(((result >>> 1 : Nat) : Int)) - 1
  else ((result >>> 1 : Nat) : Int)

/-- The loop body of `_decode_value` (`_decode_polyline6`, lines 67-79):
consume characters, accumulating 5-bit groups shifted into place, until a
group without the continuation bit (or the end of the string); return the
decoded delta and the remaining characters. -/
def decodeValueAux : List Char → Nat → Nat → Int × List Char
  | [], _, result => (zigzagDecode result, [])
  | c :: rest, shift, result =>
    let b := c.toNat - 63
    let result' := result ||| ((b &&& 0x1F) <<< shift)
    if b < 0x20 then (zigzagDecode result', rest)
    else decodeValueAux rest (shift + 5) result'

/-- One `_decode_value` call. -/
def decodeValue (l : List Char) : Int × List Char :=
  decodeValueAux l 0 0

theorem decodeValueAux_length_le :
    ∀ (l : List Char) (shift result : Nat),
      (decodeValueAux l shift result).2.length ≤ l.length := by
  intro l
  induction l with
  | nil => intro shift result; simp [decodeValueAux]
  | cons c rest ih =>
    intro shift result
    simp only [decodeValueAux]
    split
    · simp
    · exact le_trans (ih _ _) (by simp)

theorem decodeValue_length_lt (l : List Char) (h : l ≠ []) :
    (decodeValue l).2.length < l.length := by
  rcases l with _ | ⟨c, rest⟩
  · exact absurd rfl h
  · show (decodeValueAux (c :: rest) 0 0).2.length < rest.length + 1
    simp only [decodeValueAux]
    split
    · simp
    · exact Nat.lt_succ_of_le (decodeValueAux_length_le _ _ _)

/-- The outer loop of `_decode_polyline6` (lines 81-86): while characters
remain, decode a latitude delta then a longitude delta, add them to the
running integer accumulators, and emit the accumulators divided by 10^6
(the `polyline6` 1e-6-degree grid) as the next coordinate. -/
def decodePolyline6Aux : List Char → Int → Int → List (ℚ × ℚ)
  | [], _, _ => []
  | c :: cs, lat, lon =>
    let p1 := decodeValue (c :: cs)
    let p2 := decodeValue p1.2
    let lat' := lat + p1.1
    let lon' := lon + p2.1
    ((lat' : ℚ) / 1000000, (lon' : ℚ) / 1000000) ::
      decodePolyline6Aux p2.2 lat' lon'
termination_by l _ _ => l.length
decreasing_by
  have h1 : (decodeValue (c :: cs)).2.length < (c :: cs).length :=
    decodeValue_length_lt _ (List.cons_ne_nil _ _)
  have h2 : (decodeValue (decodeValue (c :: cs)).2).2.length ≤
      (decodeValue (c :: cs)).2.length := decodeValueAux_length_le _ _ _
  simp only [List.length_cons] at *
  omega

/-- Embedding of `_decode_polyline6`
(`build_realtime_trajectories.py`, lines 56-86), over the character list
of the encoded string; coordinates are exact rationals (`acc / 1e6`). -/
def _decode_polyline6 (encoded : List Char) : List (ℚ × ℚ) :=
  decodePolyline6Aux encoded 0 0

/-- A parsed JSON value (the result of `response.json()`). -/
inductive JVal where
  | null
  | jbool (b : Bool)
  | num (q : ℚ)
  | str (s : String)
  | arr (items : List JVal)
  | obj (fields : List (String × JVal))

/-- The Python exception classes the map-match client can raise while
picking the response apart.  The `except (KeyError, ValueError,
IndexError)` handler at the bottom of `valhalla_map_match` catches only
the first three. -/
inductive PyErr where
  | keyError
  | valueError
  | indexError
  | typeError
  | attributeError
deriving DecidableEq, Repr

/-- Python truthiness of a JSON value. -/
def jTruthy : JVal → Bool
  | .null => false
  | .jbool b => b
  | .num q => decide (q ≠ 0)
  | .str s => s != ("")
  | .arr items => !items.isEmpty
  | .obj fields => !fields.isEmpty

/-- `j.get(k)`: only dicts have `.get`; anything else raises
AttributeError.  A missing key yields `None`. -/
def pyGet (j : JVal) (k : String) : Except PyErr JVal :=
  match j with
  | .obj fields =>
    .ok (((fields.find? (fun p => p.1 == k)).map (fun p => p.2)).getD .null)
  | _ => .error .attributeError

/-- `k in j`: key test for dicts, element test for lists, substring test
for strings; TypeError for null, booleans and numbers. -/
def pyContains (j : JVal) (k : String) : Except PyErr Bool :=
  match j with
  | .obj fields => .ok (fields.any (fun p => p.1 == k))
  | .arr items => .ok (items.any (fun x =>
      match x with
      | JVal.str s => s == k
      | _ => false))
  | .str s => .ok (s.data.tails.any (fun t => k.data.isPrefixOf t))
  | _ => .error .typeError

/-- `j[k]` for a string subscript: dict lookup (KeyError when missing);
lists and strings take integer subscripts only (TypeError), as do the
remaining values. -/
def pyIndex (j : JVal) (k : String) : Except PyErr JVal :=
  match j with
  | .obj fields =>
    match fields.find? (fun p => p.1 == k) with
    | some p => .ok p.2
    | none => .error .keyError
  | _ => .error .typeError

/-- `lon, lat = v`: unpacking a two-element list (or two-character string,
or two-key dict, which unpacks to its keys); other lengths raise
ValueError, non-iterables TypeError. -/
def pyUnpack2 (j : JVal) : Except PyErr (JVal × JVal) :=
  match j with
  | .arr [a, b] => .ok (a, b)
  | .arr _ => .error .valueError
  | .str s =>
    match s.data with
    | [a, b] => .ok (.str ⟨[a]⟩, .str ⟨[b]⟩)
    | _ => .error .valueError
  | .obj [p, q] => .ok (.str p.1, .str q.1)
  | .obj _ => .error .valueError
  | _ => .error .typeError

/-- `float(v)`: numbers and booleans convert; strings parse (the embedding
models the integral digit strings, which covers every string reachable
here — single characters produced by string unpacking); null, lists and
dicts raise TypeError. -/
def pyFloat (j : JVal) : Except PyErr ℚ :=
  match j with
  | .num q => .ok q
  | .jbool b => .ok (if b then 1 else 0)
  | .str s =>
    if s != ("") && s.data.all Char.isDigit then
      .ok ((s.data.foldl (fun acc c => 10 * acc + (c.toNat - 48)) 0 : Nat) : ℚ)
    else .error .valueError
  | _ => .error .typeError

/-- `_decode_polyline6(geometry)` on a truthy `geometry` value: a string
decodes normally; a non-empty list decodes when every element is a
single-character string (each passes `ord`), and raises TypeError at the
first element that does not; a dict raises KeyError at `encoded[0]`;
numbers and booleans raise TypeError at `len`. -/
def decodeGeometry (j : JVal) : Except PyErr (List (ℚ × ℚ)) :=
  match j with
  | .str s => .ok (_decode_polyline6 s.data)
  | .arr items =>
    match items.mapM (fun x =>
      match x with
      | JVal.str s =>
        match s.data with
        | [c] => some c
        | _ => none
      | _ => none) with
    | some cs => .ok (_decode_polyline6 cs)
    | none => .error .typeError
  | .obj _ => .error .keyError
  | _ => .error .typeError

/-- An input GPS point handed to `valhalla_map_match`: coordinates plus
the optional per-point timestamp. -/
structure PtIn where
  lat : ℚ
  lon : ℚ
  time : Option Int
deriving DecidableEq, Repr

/-- The per-point coordinate validation (lines 128-134):
`-180 <= lon <= 180` and `-90 <= lat <= 90`. -/
def coordsValid (p : PtIn) : Bool :=
  decide (-180 ≤ p.lon) && decide (p.lon ≤ 180) &&
  decide (-90 ≤ p.lat) && decide (p.lat ≤ 90)

/-- A successful map-match result: one matched point per input point and
the route shape stored for the trajectory. -/
structure MatchResult where
  points : List (ℚ × ℚ)
  shape : List (ℚ × ℚ)
deriving DecidableEq, Repr

/-- The observable outcome of the `requests.post` call: a 200 response
with a parsed JSON body, a 200 response whose body fails to parse
(`response.json()` raises a `RequestException`-and-`ValueError` subclass,
caught by the `RequestException` handler), a non-success status (whose
defensive error-payload parsing is wrapped in its own catch-all), or a
raised network/timeout error. -/
inductive ValhallaResponse where
  | ok (body : JVal)
  | okBadJson
  | badStatus (code : Nat)
  | netError

/-- The OSRM-format extraction of `valhalla_map_match` (lines 199-236),
run inside the outer `try`: read `matchings` and `tracepoints` with
`.get` (AttributeError on a non-dict body), decode `matchings[0]`'s
geometry when present, collect per-point matched locations with `None`
placeholders, discard them all unless every point resolved, and fall back
to resampling the decoded route geometry to the input length.  Returns
the candidate matched points and the decoded full shape. -/
def extractMatched (npts : Nat) (j : JVal) :
    Except PyErr (List (ℚ × ℚ) × List (ℚ × ℚ)) := do
  let matchings ← pyGet j ("matchings")
  let tracepoints ← pyGet j ("tracepoints")
  let full_shape ←
    match matchings with
    | JVal.arr items =>
      if items.isEmpty then pure []
      else do
        let geometry ← pyGet (items.headD JVal.null) ("geometry")
        if jTruthy geometry then decodeGeometry geometry else pure []
    | _ => pure []
  let matched_raw ←
    match tracepoints with
    | JVal.arr tps => tps.mapM (fun tp => do
        if jTruthy tp then do
          let c ← pyContains tp ("location")
          if c then do
            let v ← pyIndex tp ("location")
            let lonlat ← pyUnpack2 v
            let latq ← pyFloat lonlat.2
            let lonq ← pyFloat lonlat.1
            pure (some (latq, lonq))
          else pure (none : Option (ℚ × ℚ))
        else pure (none : Option (ℚ × ℚ)))
    | _ => pure []
  let cleaned := if matched_raw.all (fun x => x.isSome) then matched_raw.filterMap id
    else []
  let matched := if cleaned.isEmpty && !full_shape.isEmpty then
      _resample_points full_shape (npts : Int)
    else cleaned
  pure (matched, full_shape)

/-- Embedding of `valhalla_map_match`
(`build_realtime_trajectories.py`, lines 107-270).  The fewer-than-two
guard and the coordinate validation precede the HTTP call; network
errors, non-success statuses and unparsable bodies all yield `None`
inside their handlers; the body extraction runs inside a `try` whose
only handler for parse-shaped failures catches `(KeyError, ValueError,
IndexError)` — any other exception (TypeError, AttributeError) escapes.
A non-`None` result is returned only when the matched point count equals
the input count, the stored shape preferring the service's own route
geometry.  (The redundant second `len(shape) < 2` check — `shape` has one
item per input point — is not repeated here.) -/
def valhalla_map_match (points : List PtIn) (resp : ValhallaResponse) :
    Except PyErr (Option MatchResult) :=
  if points.length < 2 then .ok none
  else if !(points.all coordsValid) then .ok none
  else
    match resp with
    | .netError => .ok none
    | .okBadJson => .ok none
    | .badStatus _ => .ok none
    | .ok body =>
      match extractMatched points.length body with
      | .error e =>
        if e = .keyError ∨ e = .valueError ∨ e = .indexError then .ok none
        else .error e
      | .ok (matched, full_shape) =>
        if !matched.isEmpty && matched.length == points.length then
          .ok (some ⟨matched, if !full_shape.isEmpty then full_shape else matched⟩)
        else .ok none

/-- Two valid input points and one with latitude out of range. -/
def ptA : PtIn := ⟨0, 0, none⟩

/-- A second valid input point. -/
def ptB : PtIn := ⟨1, 1, none⟩

/-- Latitude 95 is outside [-90, 90]. -/
def ptBad : PtIn := ⟨95, 0, none⟩

/-- A tracepoint entry with a resolved location. -/
def tpGood : JVal := JVal.obj [(("location"), JVal.arr [JVal.num 4, JVal.num 5])]

/-- A 200 body whose tracepoints all resolve (no matchings geometry). -/
def goodBody : JVal := JVal.obj [(("tracepoints"), JVal.arr [tpGood, tpGood])]

/-- C7 counterexample.  A 200 response whose JSON body is a top-level
array (valid JSON, malformed for the expected schema) makes
`result.get("matchings")` raise AttributeError, which no handler catches:
the function raises instead of returning the `None` sentinel. -/
theorem C7_counterexample :
    valhalla_map_match [ptA, ptB] (.ok (JVal.arr [])) =
      .error .attributeError := by
  rfl

/-- C7 amended.  `valhalla_map_match` returns the sentinel `None` and does
not raise for: fewer than two points, any out-of-range coordinate, a
network/timeout error, a non-success status, and an unparsable response
body; and a non-`None` result always carries exactly one matched point
per input point.  (A parseable body of unexpected shape can instead raise
an uncaught TypeError/AttributeError — see the counterexample — so
"malformed response body ⇒ None" holds only for bodies whose malformation
surfaces as KeyError/ValueError/IndexError.) -/
theorem C7_failure_modes :
    (∀ (pts : List PtIn) (resp : ValhallaResponse), pts.length < 2 →
      valhalla_map_match pts resp = .ok none) ∧
    (∀ (pts : List PtIn) (resp : ValhallaResponse) (p : PtIn), p ∈ pts →
      coordsValid p = false → valhalla_map_match pts resp = .ok none) ∧
    (∀ pts : List PtIn, valhalla_map_match pts .netError = .ok none) ∧
    (∀ pts : List PtIn, valhalla_map_match pts .okBadJson = .ok none) ∧
    (∀ (pts : List PtIn) (c : Nat), valhalla_map_match pts (.badStatus c) = .ok none) ∧
    (∀ (pts : List PtIn) (resp : ValhallaResponse) (r : MatchResult),
      valhalla_map_match pts resp = .ok (some r) →
      r.points.length = pts.length) := by
  refine ⟨?_, ?_, ?_, ?_, ?_, ?_⟩
  · intro pts resp h
    unfold valhalla_map_match
    rw [if_pos h]
  · intro pts resp p hp hcv
    by_cases hlen : pts.length < 2
    · unfold valhalla_map_match
      rw [if_pos hlen]
    · have hall : pts.all coordsValid = false :=
        List.all_eq_false.mpr ⟨p, hp, by simp [hcv]⟩
      unfold valhalla_map_match
      rw [if_neg hlen, if_pos (by rw [hall]; rfl)]
  · intro pts
    unfold valhalla_map_match
    split
    · rfl
    split
    · rfl
    · rfl
  · intro pts
    unfold valhalla_map_match
    split
    · rfl
    split
    · rfl
    · rfl
  · intro pts c
    unfold valhalla_map_match
    split
    · rfl
    split
    · rfl
    · rfl
  · intro pts resp r h
    unfold valhalla_map_match at h
    split at h
    · cases h
    split at h
    · cases h
    split at h
    · cases h
    · cases h
    · cases h
    · split at h
      · split at h
        · cases h
        · cases h
      · rename_i matched full_shape hcond
        split at h
        · rename_i hgood
          cases h
          have := (Bool.and_eq_true _ _).mp hgood
          have hlen : (matched.length == pts.length) = true := this.2
          simpa using hlen
        · cases h

/-- Witness for `C7_failure_modes` at concrete inputs: a single point, an
out-of-range latitude, and a fully resolved tracepoint body. -/
theorem C7_failure_modes_witness :
    valhalla_map_match [ptA] .netError = .ok none ∧
    valhalla_map_match [ptBad, ptA] (.ok goodBody) = .ok none ∧
    (⟨[((5 : ℚ), (4 : ℚ)), ((5 : ℚ), (4 : ℚ))],
        [((5 : ℚ), (4 : ℚ)), ((5 : ℚ), (4 : ℚ))]⟩ : MatchResult).points.length =
      ([ptA, ptB] : List PtIn).length := by
  refine ⟨?_, ?_, ?_⟩
  · exact C7_failure_modes.1 [ptA] .netError (by decide)
  · exact C7_failure_modes.2.1 [ptBad, ptA] (.ok goodBody) ptBad
      (List.mem_cons_self _ _) (by decide)
  · exact C7_failure_modes.2.2.2.2.2 [ptA, ptB] (.ok goodBody)
      ⟨[((5 : ℚ), (4 : ℚ)), ((5 : ℚ), (4 : ℚ))],
        [((5 : ℚ), (4 : ℚ)), ((5 : ℚ), (4 : ℚ))]⟩ (by rfl)

/-- Modelled from the spec (§4.6 polyline decode, read as an encoder):
the zig-zag mapping of a signed delta onto a non-negative integer —
`2d` for `d ≥ 0`, `2(-d) - 1` for `d < 0`. -/
def zigzag (d : Int) : Nat :=
  if d < 0 then (2 * (-d) - 1).toNat else (2 * d).toNat

/-- Modelled from the spec: emit the 5-bit groups of a zig-zagged value,
lowest group first, the 6th bit flagging continuation, each group offset
by 63 into a printable character. -/
def encNat (v : Nat) : List Char :=
  if v < 0x20 then [Char.ofNat (v + 63)]
  else Char.ofNat ((v % 0x20) + 0x20 + 63) :: encNat (v / 0x20)
termination_by v
decreasing_by
  exact Nat.div_lt_self (by omega) (by omega)

/-- Modelled from the spec: encode successive signed deltas of the
microdegree coordinates, latitude first, then longitude, per point. -/
def encodeCoords : Int → Int → List (Int × Int) → List Char
  | _, _, [] => []
  | plat, plon, (la, lo) :: rest =>
    encNat (zigzag (la - plat)) ++ encNat (zigzag (lo - plon)) ++
      encodeCoords la lo rest

/-- Modelled from the spec: snap a degree coordinate to the
1e-6-degree grid. -/
def toMicro (q : ℚ) : Int :=
  round (q * 1000000)

/-- Modelled from the spec: the polyline6 encoding of a coordinate list —
successive zig-zag-signed variable-length 5-bit-group deltas on a
1e-6-degree grid. -/
def encodePolyline6 (coords : List (ℚ × ℚ)) : List Char :=
  encodeCoords 0 0 (coords.map (fun p => (toMicro p.1, toMicro p.2)))

theorem charToNat_ofNat : ∀ v : Nat, v < 128 → (Char.ofNat v).toNat = v := by
  decide

theorem and_31_eq_mod : ∀ b : Nat, b < 64 → b &&& 31 = b % 32 := by
  decide

theorem and_1_eq_mod (x : Nat) : x &&& 1 = x % 2 :=
  Nat.and_one_is_mod x

theorem lor_shift : ∀ (s a x : Nat), a < 2 ^ s → a ||| (x <<< s) = a + x * 2 ^ s := by
  intro s
  induction s with
  | zero =>
    intro a x h
    have ha : a = 0 := by omega
    subst ha
    simp [Nat.shiftLeft_eq]
  | succ s ih =>
    intro a x h
    have hbit : Nat.bit (decide (a % 2 = 1)) (a >>> 1) = a :=
      Nat.bit_decide_mod_two_eq_one_shiftRight_one a
    have hy : x <<< (s + 1) = Nat.bit false (x <<< s) := by
      rw [Nat.shiftLeft_succ, Nat.bit_val]
      simp
    have hdiv : a / 2 < 2 ^ s := by
      have := Nat.pow_succ 2 s
      omega
    calc a ||| (x <<< (s + 1))
        = Nat.bit (decide (a % 2 = 1)) (a >>> 1) ||| Nat.bit false (x <<< s) := by
          rw [hbit, hy]
      _ = Nat.bit (decide (a % 2 = 1) || false) ((a >>> 1) ||| (x <<< s)) :=
          Nat.lor_bit _ _ _ _
      _ = Nat.bit (decide (a % 2 = 1)) (a / 2 + x * 2 ^ s) := by
          rw [Bool.or_false, Nat.shiftRight_one, ih (a / 2) x hdiv]
      _ = a + x * 2 ^ (s + 1) := by
          rw [Nat.bit_val]
          have hmod := Nat.div_add_mod a 2
          have hpow : 2 ^ (s + 1) = 2 * 2 ^ s := by
            rw [Nat.pow_succ]
            omega
          have hb : (decide (a % 2 = 1)).toNat = a % 2 := by
            rcases Nat.mod_two_eq_zero_or_one a with hm | hm <;> simp [hm]
          rw [hb, hpow]
          have hx : x * (2 * 2 ^ s) = 2 * (x * 2 ^ s) := by ring
          rw [hx]
          omega

theorem zigzag_round (d : Int) : zigzagDecode (zigzag d) = d := by
  unfold zigzag zigzagDecode
  by_cases hd : d < 0
  · rw [if_pos hd]
    have hk : ∃ k : Nat, d = -((k : Int) + 1) := ⟨((-d).toNat - 1 : Nat), by omega⟩
    rcases hk with ⟨k, rfl⟩
    have h1 : (2 * (-(-((k : Int) + 1))) - 1).toNat = 2 * k + 1 := by omega
    rw [h1]
    have h2 : (2 * k + 1) &&& 1 = 1 := by
      rw [and_1_eq_mod]
      omega
    rw [if_pos h2]
    have h3 : (2 * k + 1) >>> 1 = k := by
      rw [Nat.shiftRight_one]
      omega
    rw [h3]
    ring
  · rw [if_neg hd]
    have hk : ∃ k : Nat, d = (k : Int) := ⟨d.toNat, by omega⟩
    rcases hk with ⟨k, rfl⟩
    have h1 : (2 * (k : Int)).toNat = 2 * k := by omega
    rw [h1]
    have h2 : (2 * k) &&& 1 = 0 := by
      rw [and_1_eq_mod]
      omega
    rw [if_neg (by rw [h2]; exact Nat.zero_ne_one)]
    have h3 : (2 * k) >>> 1 = k := by
      rw [Nat.shiftRight_one]
      omega
    rw [h3]

theorem encNat_ne_nil (v : Nat) : encNat v ≠ [] := by
  unfold encNat
  split
  · exact List.cons_ne_nil _ _
  · exact List.cons_ne_nil _ _

theorem decodeValueAux_enc (v : Nat) :
    ∀ (s a : Nat) (rest : List Char), a < 2 ^ s →
      decodeValueAux (encNat v ++ rest) s a =
        (zigzagDecode (a + v * 2 ^ s), rest) := by
  induction v using Nat.strong_induction_on with
  | _ v ih =>
    intro s a rest ha
    by_cases h : v < 0x20
    · rw [encNat, if_pos h]
      simp only [List.cons_append, List.nil_append, decodeValueAux]
      have hc : (Char.ofNat (v + 63)).toNat - 63 = v := by
        rw [charToNat_ofNat (v + 63) (by omega)]
        omega
      rw [hc]
      have hand : v &&& 0x1F = v := by
        rw [and_31_eq_mod v (by omega)]
        omega
      rw [hand]
      rw [if_pos h]
      rw [lor_shift s a v ha]
      rfl
    · rw [encNat, if_neg h]
      simp only [List.cons_append, decodeValueAux]
      have hc : (Char.ofNat ((v % 0x20) + 0x20 + 63)).toNat - 63 = (v % 0x20) + 0x20 := by
        rw [charToNat_ofNat ((v % 0x20) + 0x20 + 63) (by omega)]
        omega
      rw [hc]
      have hand : ((v % 0x20) + 0x20) &&& 0x1F = v % 0x20 := by
        rw [and_31_eq_mod ((v % 0x20) + 0x20) (by omega)]
        omega
      rw [hand]
      rw [if_neg (by omega)]
      rw [lor_shift s a (v % 0x20) ha]
      show decodeValueAux (encNat (v / 0x20) ++ rest) (s + 5)
        (a + (v % 0x20) * 2 ^ s) = (zigzagDecode (a + v * 2 ^ s), rest)
      have hdiv : v / 0x20 < v := Nat.div_lt_self (by omega) (by omega)
      have hbound : a + (v % 0x20) * 2 ^ s < 2 ^ (s + 5) := by
        have hm : v % 0x20 ≤ 31 := by omega
        have hp : 2 ^ (s + 5) = 32 * 2 ^ s := by
          rw [Nat.pow_add]
          ring
        have : (v % 0x20) * 2 ^ s ≤ 31 * 2 ^ s :=
          Nat.mul_le_mul_right _ hm
        omega
      rw [ih (v / 0x20) hdiv (s + 5) (a + (v % 0x20) * 2 ^ s) rest hbound]
      have harith : a + (v % 0x20) * 2 ^ s + (v / 0x20) * 2 ^ (s + 5) =
          a + v * 2 ^ s := by
        have hp : 2 ^ (s + 5) = 32 * 2 ^ s := by
          rw [Nat.pow_add]
          ring
        rw [hp]
        have hv : 32 * (v / 32) + v % 32 = v := by omega
        calc a + (v % 0x20) * 2 ^ s + (v / 0x20) * (32 * 2 ^ s)
            = a + (32 * (v / 32) + v % 32) * 2 ^ s := by ring
          _ = a + v * 2 ^ s := by rw [hv]
      rw [harith]

theorem decodePolyline6Aux_ne_nil (l : List Char) (hl : l ≠ []) (lat lon : Int) :
    decodePolyline6Aux l lat lon =
      (((lat + (decodeValue l).1 : Int) : ℚ) / 1000000,
       ((lon + (decodeValue (decodeValue l).2).1 : Int) : ℚ) / 1000000) ::
      decodePolyline6Aux (decodeValue (decodeValue l).2).2
        (lat + (decodeValue l).1) (lon + (decodeValue (decodeValue l).2).1) := by
  rcases l with _ | ⟨c, cs⟩
  · exact absurd rfl hl
  · rw [decodePolyline6Aux]

theorem decode_encode_micro (pts : List (Int × Int)) :
    ∀ plat plon : Int,
      decodePolyline6Aux (encodeCoords plat plon pts) plat plon =
        pts.map (fun p => (((p.1 : ℚ)) / 1000000, ((p.2 : ℚ)) / 1000000)) := by
  induction pts with
  | nil =>
    intro plat plon
    show decodePolyline6Aux [] plat plon = []
    rw [decodePolyline6Aux]
  | cons p rest ih =>
    intro plat plon
    rcases p with ⟨la, lo⟩
    have henc : encodeCoords plat plon ((la, lo) :: rest) =
        encNat (zigzag (la - plat)) ++
          (encNat (zigzag (lo - plon)) ++ encodeCoords la lo rest) := by
      simp [encodeCoords, List.append_assoc]
    have h1 : decodeValue (encNat (zigzag (la - plat)) ++
        (encNat (zigzag (lo - plon)) ++ encodeCoords la lo rest)) =
        (la - plat, encNat (zigzag (lo - plon)) ++ encodeCoords la lo rest) := by
      unfold decodeValue
      rw [decodeValueAux_enc (zigzag (la - plat)) 0 0 _ (by norm_num)]
      simp [zigzag_round]
    have h2 : decodeValue (encNat (zigzag (lo - plon)) ++ encodeCoords la lo rest) =
        (lo - plon, encodeCoords la lo rest) := by
      unfold decodeValue
      rw [decodeValueAux_enc (zigzag (lo - plon)) 0 0 _ (by norm_num)]
      simp [zigzag_round]
    have hne : encNat (zigzag (la - plat)) ++
        (encNat (zigzag (lo - plon)) ++ encodeCoords la lo rest) ≠ [] := by
      simp [encNat_ne_nil]
    rw [henc, decodePolyline6Aux_ne_nil _ hne plat plon, h1]
    simp only []
    rw [h2]
    simp only []
    have hla : plat + (la - plat) = la := by ring
    have hlo : plon + (lo - plon) = lo := by ring
    rw [hla, hlo, ih la lo]
    simp

theorem micro_err (q : ℚ) :
    |((toMicro q : ℤ) : ℚ) / 1000000 - q| ≤ 1 / 1000000 := by
  unfold toMicro
  have h2 : |((round (q * 1000000) : ℤ) : ℚ) - q * 1000000| ≤ 1 / 2 := by
    rw [abs_sub_comm]
    exact abs_sub_round (q * 1000000)
  have heq : ((round (q * 1000000) : ℤ) : ℚ) / 1000000 - q =
      (((round (q * 1000000) : ℤ) : ℚ) - q * 1000000) / 1000000 := by
    ring
  rw [heq, abs_div]
  have hpos : |(1000000 : ℚ)| = 1000000 := abs_of_pos (by norm_num)
  rw [hpos]
  calc |((round (q * 1000000) : ℤ) : ℚ) - q * 1000000| / 1000000
      ≤ (1 / 2) / 1000000 := by gcongr
    _ ≤ 1 / 1000000 := by norm_num

/-- C10.  Round-trip: encoding any finite list of (lat, lon) coordinate
pairs as a polyline6 string (successive zig-zag-signed variable-length
5-bit-group deltas on a 1e-6-degree grid, modelled from the spec) and
decoding it with `_decode_polyline6` reproduces every coordinate within
1e-6 degrees, one output pair per input pair. -/
theorem C10_polyline_roundtrip (coords : List (ℚ × ℚ)) :
    (_decode_polyline6 (encodePolyline6 coords)).length = coords.length ∧
    List.Forall₂ (fun (a b : ℚ × ℚ) =>
        |b.1 - a.1| ≤ 1 / 1000000 ∧ |b.2 - a.2| ≤ 1 / 1000000)
      coords (_decode_polyline6 (encodePolyline6 coords)) := by
  have hdec : _decode_polyline6 (encodePolyline6 coords) =
      (coords.map (fun p => (toMicro p.1, toMicro p.2))).map
        (fun p => (((p.1 : ℚ)) / 1000000, ((p.2 : ℚ)) / 1000000)) := by
    unfold _decode_polyline6 encodePolyline6
    exact decode_encode_micro _ 0 0
  constructor
  · rw [hdec]
    simp
  · rw [hdec, List.map_map]
    rw [List.forall₂_map_right_iff]
    rw [List.forall₂_same]
    intro p _
    exact ⟨micro_err p.1, micro_err p.2⟩
